import Mathlib

/-!
# hideproc: a verification development

Shallow embedding of `src/hideproc.c`, a Linux kernel module that hooks
`find_ge_pid` through ftrace so that the process identifiers kept in a linked
list (`hidden_proc`) are skipped during enumeration, and that exposes a
character device whose `write` adds or deletes identifiers and whose `read`
lists them.

Conventions of the embedding

* The intrusive list `hidden_proc` of `pid_node_t` is the Lean list of the
  nodes' `id` fields, head first (`list_add_tail` appends at the end).
* C `int` / `pid_t` values are mathematical integers; wherever the C code
  computes in `int` or converts to it, the model applies `to_int`, the 32-bit
  two's complement wrap (the kernel is built with `-fno-strict-overflow`).
* The source never tests what `kmalloc` returns. The node of fixed size that
  `hide_process` asks for is taken to be granted. The `len + 1` bytes that
  `device_write` asks for are refused (`NULL`) when they exceed
  `KMALLOC_MAX_SIZE`; the `memset` that follows then writes through the null
  pointer, and `device_write` yields `none` for that fault. User memory is
  taken to be accessible, so `copy_from_user` and `copy_to_user` copy
  everything.
* Loops whose termination depends on the environment take a fuel argument and
  return `none` when the fuel is used up before the loop exits.
* Bytes are natural numbers (ASCII codes); `ascii` turns a string literal into
  its bytes.
* What the C program reads without having written it (the local `pid` of
  `device_write` after a failed `kstrtol`, the bytes past the end of the
  allocated message) is an explicit parameter, `indeterminate`.
* `device_read` yields `none` when `sprintf` writes past the end of the
  on-stack array `message`: from there on the C program has no defined
  behaviour.
* The kernel services behind the hook (`kallsyms_lookup_name`,
  `ftrace_set_filter_ip`, `register_ftrace_function`,
  `unregister_ftrace_function`) are a record `kernel` of the answers they give;
  `hook_install`, `hook_remove`, `init_hook`, `_hideproc_init` and
  `_hideproc_exit` return, next to their result, the calls and stores they
  make, in order. A function-pointer or address is a natural number, 0 for
  `NULL`; the location `hook->orig` points at is a cell kept next to the
  descriptor.
* `kstrtol`, `sprintf` and the original `find_ge_pid` belong to the kernel, not
  to this repository; they are modelled after the kernel's implementation
  (`lib/kstrtox.c`, base 10), the `%d` conversion, and the behaviour the
  enumeration properties assume of the primitive.
-/

namespace Hideproc

/-! ## C integers -/

/-- Smallest value of a C `int`. -/
def INT_MIN : Int := -2147483648

/-- Largest value of a C `int`. -/
def INT_MAX : Int := 2147483647

/-- Value of an integer expression once stored in a C `int` (or `pid_t`):
32-bit two's complement wrap-around. -/
def to_int (x : Int) : Int := (x + 2147483648) % 4294967296 - 2147483648

/-- Enum constant `SUCCESS` of `enum RETURN_CODE`. -/
def SUCCESS : Int := 0

/-! ## Kernel records seen by the hook -/

/-- Kernel `struct upid`, reduced to the field the module reads. -/
structure upid where
  nr : Int
  deriving DecidableEq, Repr

/-- Kernel `struct pid`, reduced to `numbers[0]`, which `pid->numbers->nr` reads. -/
structure pid where
  numbers : upid
  deriving DecidableEq, Repr

/-! ## HiddenSet: `is_hidden_proc`, `hide_process`, `unhide_process` -/

/-- Function `is_hidden_proc`: walk the list, `true` at the first node whose `id`
equals `pid`, `false` when the walk reaches the end. -/
def is_hidden_proc : List Int → Int → Bool
  | [], _ => false
  | id :: rest, p => if id = p then true else is_hidden_proc rest p

/-- Function `hide_process`: nothing to do when `pid` is already in the list,
otherwise a fresh node is linked at the tail. Returns the status and the list. -/
def hide_process (hidden_proc : List Int) (p : Int) : Int × List Int :=
  if is_hidden_proc hidden_proc p then (SUCCESS, hidden_proc)
  else (SUCCESS, hidden_proc ++ [p])

/-- Loop of `unhide_process`: unlink the first node whose `id` equals `pid`
and stop (`break`). -/
def unhide_loop : List Int → Int → List Int
  | [], _ => []
  | id :: rest, p => if id = p then rest else id :: unhide_loop rest p

/-- Function `unhide_process`. Returns the status and the list. -/
def unhide_process (hidden_proc : List Int) (p : Int) : Int × List Int :=
  (SUCCESS, unhide_loop hidden_proc p)

/-! ## FilteredEnumerator: `hook_find_ge_pid` -/

/-- The `while` loop of `hook_find_ge_pid`, entered with the value `pid` holds.
The first component lists the cursors passed to `real_find_ge_pid` by the loop
body, in call order; the second is the returned pointer (`some none` is `NULL`),
or `none` when the fuel ran out with the loop still going. -/
def find_loop {ν : Type} (real_find_ge_pid : Int → ν → Option pid)
    (hidden_proc : List Int) (ns : ν) :
    Nat → Option pid → List Int × Option (Option pid)
  | _, none => ([], some none)
  | 0, some p =>
    if is_hidden_proc hidden_proc p.numbers.nr then ([], none)
    else ([], some (some p))
  | fuel + 1, some p =>
    if is_hidden_proc hidden_proc p.numbers.nr then
      let r := find_loop real_find_ge_pid hidden_proc ns fuel
        (real_find_ge_pid (to_int (p.numbers.nr + 1)) ns)
      (to_int (p.numbers.nr + 1) :: r.1, r.2)
    else ([], some (some p))

/-- Function `hook_find_ge_pid`: one call of the original primitive at `nr`,
then the skip loop. Components as in `find_loop`, the first cursor being `nr`. -/
def hook_find_ge_pid {ν : Type} (fuel : Nat) (real_find_ge_pid : Int → ν → Option pid)
    (hidden_proc : List Int) (nr : Int) (ns : ν) : List Int × Option (Option pid) :=
  let r := find_loop real_find_ge_pid hidden_proc ns fuel (real_find_ge_pid nr ns)
  (nr :: r.1, r.2)


/-! ## The original primitive, as the claims assume it -/

/-- Smallest element of `existing` that is at least `c`, if there is one. -/
def smallest_ge : List Int → Int → Option Int
  | [], _ => none
  | e :: rest, c =>
    match smallest_ge rest c with
    | none => if c ≤ e then some e else none
    | some m => if c ≤ e ∧ e < m then some e else some m

/-- An original primitive over a given population of identifiers: the kernel's
`find_ge_pid` is not part of this repository, and this is the behaviour the
enumeration claims assume of it (smallest existing identifier at or after the
cursor, `NULL` when there is none). The namespace argument is not consulted. -/
def find_ge_pid (existing : List Int) (nr : Int) (_ns : Unit) : Option pid :=
  (smallest_ge existing nr).map (fun e => ⟨⟨e⟩⟩)

/-- Assumption "the original primitive returns the smallest existing identifier
at or after its cursor, or none when there is no such identifier", for every
cursor a C `int` can hold. -/
def returns_smallest_ge {ν : Type} (real : Int → ν → Option pid) (ns : ν)
    (existing : List Int) : Prop :=
  ∀ c : Int, INT_MIN ≤ c → c ≤ INT_MAX →
    match real c ns with
    | none => ∀ e ∈ existing, e < c
    | some p => p.numbers.nr ∈ existing ∧ c ≤ p.numbers.nr ∧
        ∀ e ∈ existing, c ≤ e → p.numbers.nr ≤ e

/-- Property "`r` is the smallest existing identifier at or after `n` that is not
hidden, or none when no such identifier exists". -/
def is_smallest_unhidden_ge (existing hidden : List Int) (n : Int) : Option pid → Prop
  | none => ∀ e ∈ existing, n ≤ e → e ∈ hidden
  | some p => p.numbers.nr ∈ existing ∧ n ≤ p.numbers.nr ∧ p.numbers.nr ∉ hidden ∧
      ∀ e ∈ existing, n ≤ e → e ∉ hidden → p.numbers.nr ≤ e

/-- An original primitive that answers every cursor with the identifier
`INT_MAX`: each answer is at or after the cursor. -/
def find_ge_pid_top (nr : Int) (_ns : Unit) : Option pid :=
  if nr ≤ INT_MAX then some ⟨⟨INT_MAX⟩⟩ else none

/-! ## Sequences of control operations on the hidden list -/

/-- One mutation of the hidden list: `add` is a call of `hide_process`, `del`
a call of `unhide_process`. -/
inductive set_op where
  | add (id : Int)
  | del (id : Int)
  deriving DecidableEq, Repr

/-- Effect of one operation on the list. -/
def apply_op (hidden_proc : List Int) : set_op → List Int
  | set_op.add id => (hide_process hidden_proc id).2
  | set_op.del id => (unhide_process hidden_proc id).2

/-- Effect of a sequence of operations, first to last. -/
def run_ops (hidden_proc : List Int) (ops : List set_op) : List Int :=
  ops.foldl apply_op hidden_proc

/-- States of the hidden list the module can be in: what a sequence of
operations makes of the empty list set up by `INIT_LIST_HEAD`. -/
def reachable (hidden_proc : List Int) : Prop :=
  ∃ ops : List set_op, run_ops [] ops = hidden_proc

/-- Whether an operation names `id`. -/
def names (id : Int) : set_op → Bool
  | set_op.add i => decide (i = id)
  | set_op.del i => decide (i = id)

/-- The last operation of a sequence that names `id`, if any. -/
def last_naming (id : Int) (ops : List set_op) : Option set_op :=
  ops.reverse.find? (names id)

/-- Set semantics in the spec's words: the last operation naming `id` is an add. -/
def last_op_is_add (id : Int) (ops : List set_op) : Bool :=
  match last_naming id ops with
  | some (set_op.add _) => true
  | _ => false

/-! ## Kernel library routines used by the control channel -/

/-- Error number `EAGAIN`. -/
def EAGAIN : Int := 11

/-- Error number `EINVAL`. -/
def EINVAL : Int := 22

/-- Error number `ERANGE`. -/
def ERANGE : Int := 34

/-- ASCII codes of a string literal; bytes are natural numbers. -/
def ascii (s : String) : List Nat := s.toList.map Char.toNat

/-- The C string found at offset `off` of a memory region: the bytes from there
up to the first NUL. -/
def c_string (mem : List Nat) (off : Nat) : List Nat :=
  (mem.drop off).takeWhile (fun b => decide (b ≠ 0))

/-- Loop of the kernel's `_parse_integer` in base 10: value of the leading
decimal digits (accumulated from `acc`), their number, and the rest. -/
def parse_integer : List Nat → Nat → Nat → Nat × Nat × List Nat
  | [], acc, cnt => (acc, cnt, [])
  | b :: rest, acc, cnt =>
    if 48 ≤ b ∧ b ≤ 57 then parse_integer rest (acc * 10 + (b - 48)) (cnt + 1)
    else (acc, cnt, b :: rest)

/-- Kernel `_kstrtoull` in base 10 on a C string: at least one digit, then at
most one newline, then the end; the value must fit `unsigned long long`.
`Except.error` carries the positive error number. -/
def kstrtoull_digits (s : List Nat) : Except Int Nat :=
  let r := parse_integer s 0 0
  if 18446744073709551615 < r.1 then Except.error ERANGE
  else if r.2.1 = 0 then Except.error EINVAL
  else if r.2.2 = [] ∨ r.2.2 = [10] then Except.ok r.1
  else Except.error EINVAL

/-- Kernel `kstrtol(s, 10, &res)` on a 64-bit build (`kstrtoll`), which lives in
the kernel's `lib/kstrtox.c` and not in this repository: an optional sign, the
digits, the range check of `long`. The first component is the return value,
the second the value stored through `res`, which is written on success only. -/
def kstrtol (s : List Nat) : Int × Option Int :=
  if s.head? = some 45 then
    match kstrtoull_digits s.tail with
    | Except.error e => (-e, none)
    | Except.ok v =>
      if 9223372036854775808 < v then (-ERANGE, none) else (0, some (-(v : Int)))
  else
    match kstrtoull_digits (if s.head? = some 43 then s.tail else s) with
    | Except.error e => (-e, none)
    | Except.ok v =>
      if 9223372036854775807 < v then (-ERANGE, none) else (0, some (v : Int))

/-- Decimal digits of `n` as ASCII codes, most significant first; `fuel` bounds
the number of digits. -/
def decimal_fuel : Nat → Nat → List Nat
  | 0, _ => []
  | fuel + 1, n =>
    if n < 10 then [48 + n] else decimal_fuel fuel (n / 10) ++ [48 + n % 10]

/-- Value of a string of decimal digits read from the left, starting from `acc`. -/
def digits_value (acc : Nat) (ds : List Nat) : Nat :=
  ds.foldl (fun a b => a * 10 + (b - 48)) acc

/-- Conversion `%d` of the kernel's `sprintf`: a minus sign for a negative
value, then the decimal digits of the magnitude. -/
def format_d (i : Int) : List Nat :=
  (if i < 0 then [45] else []) ++ decimal_fuel (i.natAbs + 1) i.natAbs

/-! ## ControlChannel: `device_read`, `device_write` -/

/-- Size of `OUTPUT_BUFFER_FORMAT`, the literal `"pid: %d\n"` with its NUL. -/
def sizeof_OUTPUT_BUFFER_FORMAT : Nat := 9

/-- Macro `MAX_MESSAGE_SIZE`. -/
def MAX_MESSAGE_SIZE : Nat := sizeof_OUTPUT_BUFFER_FORMAT + 4

/-- The characters `sprintf(message, OUTPUT_BUFFER_FORMAT, id)` produces, without
the terminating NUL. -/
def sprintf_pid (id : Int) : List Nat :=
  ascii "pid: " ++ format_d id ++ [10]

/-- Call `copy_to_user(buffer + pos, bytes, bytes.length)` on the part of the
user buffer written so far. -/
def copy_to_user (user : List Nat) (pos : Nat) (bytes : List Nat) : List Nat :=
  user.take pos ++ bytes ++ user.drop (pos + bytes.length)

/-- What a `read` leaves behind: return value, bytes stored in the user buffer
from its start, and the stream offset. -/
structure read_result where
  ret : Int
  buffer : List Nat
  offset : Nat
  deriving DecidableEq, Repr

/-- The `list_for_each_entry_safe` loop of `device_read`, from the nodes still
to visit. `none` when `sprintf` writes past the end of `message`, an array of
`MAX_MESSAGE_SIZE` bytes on the stack, after which the C program has no
defined behaviour. -/
def read_loop : List Int → List Nat → Nat → Option (List Nat × Nat)
  | [], user, offset => some (user, offset)
  | id :: rest, user, offset =>
    if MAX_MESSAGE_SIZE < (sprintf_pid id).length + 1 then none
    else read_loop rest (copy_to_user user offset (sprintf_pid id))
      (offset + (sprintf_pid id).length)

/-- Function `device_read`. The requested length `len` is not consulted by the
source. User memory is taken to be writable (`copy_to_user` succeeds). -/
def device_read (hidden_proc : List Int) (_len : Nat) (offset : Nat) : Option read_result :=
  if offset ≠ 0 then some ⟨0, [], offset⟩
  else
    match read_loop hidden_proc [] offset with
    | none => none
    | some (user, off) => some ⟨off, user, off⟩

/-- Newline-terminated lines of a byte stream, each with its newline; `cur`
holds the bytes of the line being read. Bytes after the last newline are not a
line. -/
def lines_from : List Nat → List Nat → List (List Nat)
  | [], _ => []
  | b :: rest, cur =>
    if b = 10 then (cur ++ [10]) :: lines_from rest [] else lines_from rest (cur ++ [b])

/-- Number of times the newline-terminated `line` occurs as a line of `out`. -/
def count_line (line out : List Nat) : Nat :=
  ((lines_from out []).filter (fun l => decide (l = line))).length

/-- Values the C program reads without having written them: the local
`long pid` of `device_write`, which `kstrtol` leaves alone when it fails, and
the bytes that follow the `len + 1` bytes obtained from `kmalloc`. -/
structure indeterminate where
  pid : Int
  past_end : List Nat

/-- Calls made by `device_write`, in order, with the arguments that matter. -/
inductive call where
  | kmalloc (size : Nat)
  | memcmp (token : List Nat)
  | kstrtol (s : List Nat) (ret : Int)
  | hide_process (p : Int)
  | unhide_process (p : Int)
  | kfree
  deriving DecidableEq, Repr

/-- What a `write` leaves behind: return value, the hidden list, the stream
offset and the calls made. -/
structure write_result where
  ret : Int
  hidden_proc : List Int
  offset : Nat
  calls : List call
  deriving DecidableEq, Repr

/-- Array `add_message`, with its NUL. -/
def add_message : List Nat := ascii "add" ++ [0]

/-- Array `del_message`, with its NUL. -/
def del_message : List Nat := ascii "del" ++ [0]

/-- Kernel `KMALLOC_MAX_SIZE`, the largest size `kmalloc` serves: 4 MiB with
4 KiB pages and `MAX_ORDER` 11. A larger request returns `NULL`. -/
def KMALLOC_MAX_SIZE : Nat := 4194304

/-- Function `device_write`; `buffer` holds the `len` bytes of the user buffer.
`none` when `kmalloc(len + 1)` returns `NULL`, as it does above
`KMALLOC_MAX_SIZE`: the result is not tested and `memset` faults on the null
pointer. User memory is taken to be readable (`copy_from_user` succeeds). -/
def device_write (u : indeterminate) (hidden_proc : List Int) (buffer : List Nat)
    (offset : Nat) : Option write_result :=
  let len := buffer.length
  if len < add_message.length - 1 ∧ len < del_message.length - 1 then
    some ⟨-EAGAIN, hidden_proc, offset, []⟩
  else if KMALLOC_MAX_SIZE < len + 1 then none
  else
    let message := buffer ++ [0]
    let memory := message ++ u.past_end
    if message.take (add_message.length - 1) = add_message.take (add_message.length - 1) then
      let s := c_string memory add_message.length
      let k := kstrtol s
      let p := match k.2 with
        | some v => v
        | none => u.pid
      some ⟨len, (hide_process hidden_proc (to_int p)).2, len,
        [call.kmalloc (len + 1), call.memcmp add_message, call.kstrtol s k.1,
          call.hide_process (to_int p), call.kfree]⟩
    else if message.take (del_message.length - 1)
        = del_message.take (del_message.length - 1) then
      let s := c_string memory del_message.length
      let k := kstrtol s
      let p := match k.2 with
        | some v => v
        | none => u.pid
      some ⟨len, (unhide_process hidden_proc (to_int p)).2, len,
        [call.kmalloc (len + 1), call.memcmp add_message, call.memcmp del_message,
          call.kstrtol s k.1, call.unhide_process (to_int p), call.kfree]⟩
    else
      some ⟨-EAGAIN, hidden_proc, offset,
        [call.kmalloc (len + 1), call.memcmp add_message, call.memcmp del_message,
          call.kfree]⟩

/-! ## InterceptionEngine: `hook_resolve_addr`, `hook_ftrace_thunk`, `hook_install`, `hook_remove` -/

/-- Error number `ENOENT`. -/
def ENOENT : Int := 2

/-- The flags of `struct ftrace_ops` that `hook_install` sets. -/
inductive ftrace_flag where
  | FTRACE_OPS_FL_SAVE_REGS
  | FTRACE_OPS_FL_RECURSION_SAFE
  | FTRACE_OPS_FL_IPMODIFY
  deriving DecidableEq, Repr

/-- Values of the callback pointer `ops.func`. -/
inductive ftrace_func where
  | unset
  | hook_ftrace_thunk
  deriving DecidableEq, Repr

/-- Kernel `struct ftrace_ops`, reduced to the fields the module writes. -/
structure ftrace_ops where
  func : ftrace_func
  flags : List ftrace_flag
  deriving DecidableEq, Repr

/-- Record `struct ftrace_hook` without its pointer `orig`: the location that
pointer designates is kept next to the record, in `hook_state`. Addresses and
function pointers are natural numbers, 0 being `NULL`. -/
structure ftrace_hook where
  name : String
  func : Nat
  address : Nat
  ops : ftrace_ops
  deriving DecidableEq, Repr

/-- A hook descriptor together with the content of the location `hook->orig`
points at. -/
structure hook_state where
  hook : ftrace_hook
  orig : Nat
  deriving DecidableEq, Repr

/-- The kernel services the module calls, as the answers they give:
`kallsyms_lookup_name` by name (0 when the symbol is unknown),
`ftrace_set_filter_ip` by its arguments `ip`, `remove`, `reset`, and the
results of `register_ftrace_function`, `unregister_ftrace_function` and
`alloc_chrdev_region`. -/
structure kernel where
  kallsyms_lookup_name : String → Nat
  ftrace_set_filter_ip : Nat → Nat → Nat → Int
  register_ftrace_function : Int
  unregister_ftrace_function : Int
  alloc_chrdev_region : Int

/-- Calls and stores made by the hooking and life-cycle functions, in order. -/
inductive kcall where
  | kallsyms_lookup_name (name : String)
  | store_orig (address : Nat)
  | ftrace_set_filter_ip (ip : Nat) (remove : Nat) (reset : Nat)
  | register_ftrace_function
  | unregister_ftrace_function
  | printk_s (format : String) (arg : String)
  | printk_d (format : String) (arg : Int)
  | INIT_LIST_HEAD
  | list_del (id : Int)
  | kfree (id : Int)
  | alloc_chrdev_region
  | class_create
  | cdev_init
  | cdev_add
  | device_create
  | device_destroy
  | class_destroy
  | unregister_chrdev_region
  | cdev_del
  deriving DecidableEq, Repr

/-- Function `hook_resolve_addr`: return value, descriptor and location
afterwards, calls made. The store through `hook->orig` happens on success
only. -/
def hook_resolve_addr (k : kernel) (h : hook_state) : Int × hook_state × List kcall :=
  let address := k.kallsyms_lookup_name h.hook.name
  let hook : ftrace_hook := ⟨h.hook.name, h.hook.func, address, h.hook.ops⟩
  if address = 0 then
    (-ENOENT, ⟨hook, h.orig⟩,
      [kcall.kallsyms_lookup_name h.hook.name,
        kcall.printk_s "unresolved symbol: %s\n" h.hook.name])
  else
    (0, ⟨hook, address⟩,
      [kcall.kallsyms_lookup_name h.hook.name, kcall.store_orig address])

/-- Function `hook_install`: return value, descriptor and location afterwards,
calls made. -/
def hook_install (k : kernel) (h : hook_state) : Int × hook_state × List kcall :=
  let r := hook_resolve_addr k h
  if r.1 ≠ 0 then (r.1, r.2.1, r.2.2)
  else
    let hook : ftrace_hook := ⟨r.2.1.hook.name, r.2.1.hook.func, r.2.1.hook.address,
      ⟨ftrace_func.hook_ftrace_thunk,
        [ftrace_flag.FTRACE_OPS_FL_SAVE_REGS, ftrace_flag.FTRACE_OPS_FL_RECURSION_SAFE,
          ftrace_flag.FTRACE_OPS_FL_IPMODIFY]⟩⟩
    let s : hook_state := ⟨hook, r.2.1.orig⟩
    let err := k.ftrace_set_filter_ip hook.address 0 0
    if err ≠ 0 then
      (err, s, r.2.2 ++ [kcall.ftrace_set_filter_ip hook.address 0 0,
        kcall.printk_d "ftrace_set_filter_ip() failed: %d\n" err])
    else
      let err := k.register_ftrace_function
      if err ≠ 0 then
        (err, s, r.2.2 ++ [kcall.ftrace_set_filter_ip hook.address 0 0,
          kcall.register_ftrace_function,
          kcall.printk_d "register_ftrace_function() failed: %d\n" err,
          kcall.ftrace_set_filter_ip hook.address 1 0])
      else
        (0, s, r.2.2 ++ [kcall.ftrace_set_filter_ip hook.address 0 0,
          kcall.register_ftrace_function])

/-- Function `hook_remove`: the calls made. Nothing is returned. -/
def hook_remove (k : kernel) (hook : ftrace_hook) : List kcall :=
  [kcall.unregister_ftrace_function]
    ++ (if k.unregister_ftrace_function ≠ 0 then
        [kcall.printk_d "unregister_ftrace_function() failed: %d\n"
          k.unregister_ftrace_function]
      else [])
    ++ [kcall.ftrace_set_filter_ip hook.address 1 0]
    ++ (if k.ftrace_set_filter_ip hook.address 1 0 ≠ 0 then
        [kcall.printk_d "ftrace_set_filter_ip() failed: %d\n"
          (k.ftrace_set_filter_ip hook.address 1 0)]
      else [])

/-- Kernel `struct module_layout`: where a region of a module lies. -/
structure module_layout where
  base : Nat
  size : Nat
  deriving DecidableEq, Repr

/-- Kernel `struct module`, reduced to the two regions `within_module` looks at. -/
structure module where
  init_layout : module_layout
  core_layout : module_layout
  deriving DecidableEq, Repr

/-- Kernel `within_module_init`. -/
def within_module_init (addr : Nat) (mod : module) : Bool :=
  decide (mod.init_layout.base ≤ addr ∧ addr < mod.init_layout.base + mod.init_layout.size)

/-- Kernel `within_module_core`. -/
def within_module_core (addr : Nat) (mod : module) : Bool :=
  decide (mod.core_layout.base ≤ addr ∧ addr < mod.core_layout.base + mod.core_layout.size)

/-- Kernel `within_module`: the address lies in the module's init or core region. -/
def within_module (addr : Nat) (mod : module) : Bool :=
  within_module_init addr mod || within_module_core addr mod

/-- Kernel `struct pt_regs`: the saved instruction pointer, the stack pointer
and the other saved registers. -/
structure pt_regs where
  ip : Nat
  sp : Nat
  others : List Nat
  deriving DecidableEq, Repr

/-- Function `hook_ftrace_thunk`; `hook` is the descriptor that contains `ops`
(`container_of`). Returns the saved registers afterwards. -/
def hook_ftrace_thunk (THIS_MODULE : module) (hook : ftrace_hook) (_ip parent_ip : Nat)
    (regs : pt_regs) : pt_regs :=
  if !within_module parent_ip THIS_MODULE then ⟨hook.func, regs.sp, regs.others⟩
  else regs

/-! ## Life cycle: `init_hook`, `_hideproc_init`, `_hideproc_exit` -/

/-- The parts of `hideproc_data_t` the hook and the list live in. -/
structure hideproc_data_t where
  hook : ftrace_hook
  hidden_proc : List Int
  real_find_ge_pid : Nat
  deriving DecidableEq, Repr

/-- Function `init_hook`; `replacement` is the address of `hook_find_ge_pid`.
`hook.orig` is made to point at `real_find_ge_pid`; whatever `hook_install`
returns is dropped. -/
def init_hook (k : kernel) (replacement : Nat) (d : hideproc_data_t) :
    hideproc_data_t × List kcall :=
  let real := k.kallsyms_lookup_name "find_ge_pid"
  let hook : ftrace_hook := ⟨"find_ge_pid", replacement, d.hook.address, d.hook.ops⟩
  let r := hook_install k ⟨hook, real⟩
  (⟨r.2.1.hook, d.hidden_proc, r.2.1.orig⟩, kcall.kallsyms_lookup_name "find_ge_pid" :: r.2.2)

/-- Function `_hideproc_init`: return value, module data afterwards, calls made.
The value of `err` is never read. -/
def _hideproc_init (k : kernel) (replacement : Nat) (d : hideproc_data_t) :
    Int × hideproc_data_t × List kcall :=
  let r := init_hook k replacement ⟨d.hook, [], d.real_find_ge_pid⟩
  (0, r.1,
    [kcall.printk_s "@ %s\n" "_hideproc_init", kcall.INIT_LIST_HEAD,
      kcall.alloc_chrdev_region, kcall.class_create, kcall.cdev_init, kcall.cdev_add,
      kcall.device_create] ++ r.2)

/-- The `list_for_each_entry_safe` loop of `_hideproc_exit`, from the list as
it stands: the node visited is unlinked and freed, the walk goes on with the
node saved in `tmp_proc`, which is now the first of the list. Returns the list
afterwards and the calls made. -/
def exit_loop : List Int → List Int × List kcall
  | [] => ([], [])
  | id :: rest =>
    let r := exit_loop rest
    (r.1, kcall.list_del id :: kcall.kfree id :: r.2)

/-- Function `_hideproc_exit`: module data afterwards and calls made. -/
def _hideproc_exit (k : kernel) (d : hideproc_data_t) : hideproc_data_t × List kcall :=
  let r := exit_loop d.hidden_proc
  (⟨d.hook, r.1, d.real_find_ge_pid⟩,
    [kcall.printk_s "@ %s\n" "_hideproc_exit"] ++ hook_remove k d.hook ++ r.2
      ++ [kcall.device_destroy, kcall.class_destroy, kcall.unregister_chrdev_region,
        kcall.cdev_del])

/-- A kernel in which no symbol resolves; every other service succeeds. -/
def kernel_without_symbols : kernel :=
  ⟨fun _ => 0, fun _ _ _ => 0, 0, 0, 0⟩

/-- A kernel in which every symbol resolves to address 4096, arming the filter
succeeds, registration fails with -16, disarming the filter fails with -22 and
`unregister_ftrace_function` fails with -5. -/
def kernel_refusing_registration : kernel :=
  ⟨fun _ => 4096, fun _ remove _ => if remove = 1 then -22 else 0, -16, -5, 0⟩

/-- Events that arm the redirection: the filter call with `remove = 0` and
the registration. -/
def arms : kcall → Bool
  | kcall.ftrace_set_filter_ip _ 0 _ => true
  | kcall.register_ftrace_function => true
  | _ => false

/-- Whether, in a sequence of calls, a store through `orig` comes before the
first event that arms the redirection (true when nothing arms it). -/
def stored_before_armed : List kcall → Bool
  | [] => true
  | kcall.store_orig _ :: _ => true
  | ev :: rest => if arms ev then false else stored_before_armed rest

/-- The node a `kfree` event releases. -/
def freed_node : kcall → Option Int
  | kcall.kfree id => some id
  | _ => none

/-- Whether an event is a log line. -/
def is_printk : kcall → Bool
  | kcall.printk_s _ _ => true
  | kcall.printk_d _ _ => true
  | _ => false

/-! ## Lemmas on the hidden list -/

theorem is_hidden_proc_iff_mem (l : List Int) (p : Int) :
    is_hidden_proc l p = true ↔ p ∈ l := by
  induction l with
  | nil => simp [is_hidden_proc]
  | cons a t ih =>
    by_cases h : a = p
    · simp [is_hidden_proc, h]
    · have h2 : ¬ p = a := fun e => h e.symm
      simp [is_hidden_proc, h, h2, ih]

theorem is_hidden_proc_false_iff (l : List Int) (p : Int) :
    is_hidden_proc l p = false ↔ p ∉ l := by
  rw [← is_hidden_proc_iff_mem]; simp

theorem find_loop_not_hidden {ν : Type} (real : Int → ν → Option pid)
    (hidden : List Int) (ns : ν) (fuel : Nat) (start : Option pid) (p : pid)
    (h : (find_loop real hidden ns fuel start).2 = some (some p)) :
    is_hidden_proc hidden p.numbers.nr = false := by
  induction fuel generalizing start with
  | zero =>
    cases start with
    | none => simp [find_loop] at h
    | some q =>
      by_cases hq : is_hidden_proc hidden q.numbers.nr = true
      · simp [find_loop, hq] at h
      · simp [find_loop, hq] at h
        subst h
        simpa using hq
  | succ k ih =>
    cases start with
    | none => simp [find_loop] at h
    | some q =>
      by_cases hq : is_hidden_proc hidden q.numbers.nr = true
      · simp only [find_loop, hq, if_true] at h
        exact ih _ h
      · simp [find_loop, hq] at h
        subst h
        simpa using hq


/-! ## Lemmas on the enumeration -/

theorem to_int_of_range (x : Int) (h1 : INT_MIN ≤ x) (h2 : x ≤ INT_MAX) : to_int x = x := by
  unfold to_int
  unfold INT_MIN at h1
  unfold INT_MAX at h2
  omega

theorem smallest_ge_none (l : List Int) (c : Int) (h : smallest_ge l c = none) :
    ∀ e ∈ l, e < c := by
  induction l with
  | nil => simp
  | cons a t ih =>
    cases hr : smallest_ge t c with
    | none =>
      simp only [smallest_ge, hr] at h
      by_cases hc : c ≤ a
      · simp [hc] at h
      · intro e he
        rcases List.mem_cons.1 he with rfl | he
        · omega
        · exact ih hr e he
    | some m =>
      simp only [smallest_ge, hr] at h
      split at h <;> simp at h

theorem smallest_ge_some (l : List Int) (c m : Int) (h : smallest_ge l c = some m) :
    m ∈ l ∧ c ≤ m ∧ ∀ e ∈ l, c ≤ e → m ≤ e := by
  induction l generalizing m with
  | nil => simp [smallest_ge] at h
  | cons a t ih =>
    cases hr : smallest_ge t c with
    | none =>
      have hn := smallest_ge_none t c hr
      simp only [smallest_ge, hr] at h
      by_cases hc : c ≤ a
      · simp only [hc, if_true, Option.some.injEq] at h
        subst h
        refine ⟨List.mem_cons_self _ _, hc, ?_⟩
        intro e he hce
        rcases List.mem_cons.1 he with rfl | he
        · exact le_refl _
        · have := hn e he
          omega
      · simp [hc] at h
    | some k =>
      obtain ⟨hk1, hk2, hk3⟩ := ih k hr
      simp only [smallest_ge, hr] at h
      by_cases hc : c ≤ a ∧ a < k
      · simp only [hc, and_self, if_true, Option.some.injEq] at h
        subst h
        refine ⟨List.mem_cons_self _ _, hc.1, ?_⟩
        intro e he hce
        rcases List.mem_cons.1 he with rfl | he
        · exact le_refl _
        · have := hk3 e he hce
          omega
      · simp only [hc, if_false, Option.some.injEq] at h
        subst h
        refine ⟨List.mem_cons_of_mem _ hk1, hk2, ?_⟩
        intro e he hce
        rcases List.mem_cons.1 he with rfl | he
        · by_contra hlt
          exact hc ⟨hce, by omega⟩
        · exact hk3 e he hce

theorem find_ge_pid_returns_smallest_ge (existing : List Int) :
    returns_smallest_ge (find_ge_pid existing) () existing := by
  intro c _ _
  cases hr : smallest_ge existing c with
  | none =>
    simp only [find_ge_pid, hr, Option.map_none']
    exact smallest_ge_none existing c hr
  | some m =>
    simp only [find_ge_pid, hr, Option.map_some']
    exact smallest_ge_some existing c m hr

theorem find_loop_smallest {ν : Type} (real : Int → ν → Option pid) (ns : ν)
    (existing hidden : List Int) (n : Int)
    (hreal : returns_smallest_ge real ns existing)
    (hsafe : ∀ e ∈ existing, is_hidden_proc hidden e = true → e < INT_MAX) :
    ∀ (fuel : Nat) (c : Int), INT_MIN ≤ c → c ≤ INT_MAX → n ≤ c →
      (∀ e ∈ existing, n ≤ e → e < c → e ∈ hidden) →
      (existing.filter (fun e => decide (c ≤ e))).length ≤ fuel →
      ∃ r, (find_loop real hidden ns fuel (real c ns)).2 = some r ∧
        is_smallest_unhidden_ge existing hidden n r := by
  intro fuel
  induction fuel with
  | zero =>
    intro c hc1 hc2 hnc hbelow hlen
    have hspec := hreal c hc1 hc2
    cases hr : real c ns with
    | none =>
      rw [hr] at hspec
      refine ⟨none, by simp [find_loop], ?_⟩
      intro e he hne
      exact hbelow e he hne (hspec e he)
    | some p =>
      rw [hr] at hspec
      obtain ⟨hp1, hp2, hp3⟩ := hspec
      have hmem : p.numbers.nr ∈ existing.filter (fun e => decide (c ≤ e)) := by
        simp [List.mem_filter, hp1, hp2]
      have hpos := List.length_pos_of_mem hmem
      omega
  | succ k ih =>
    intro c hc1 hc2 hnc hbelow hlen
    have hspec := hreal c hc1 hc2
    cases hr : real c ns with
    | none =>
      rw [hr] at hspec
      refine ⟨none, by simp [find_loop], ?_⟩
      intro e he hne
      exact hbelow e he hne (hspec e he)
    | some p =>
      rw [hr] at hspec
      obtain ⟨hp1, hp2, hp3⟩ := hspec
      by_cases hh : is_hidden_proc hidden p.numbers.nr = true
      · have hpm := hsafe _ hp1 hh
        have hto : to_int (p.numbers.nr + 1) = p.numbers.nr + 1 :=
          to_int_of_range _ (by omega) (by omega)
        simp only [find_loop, hh, if_true, hto]
        apply ih (p.numbers.nr + 1) (by omega) (by omega) (by omega)
        · intro e he hne hlt
          by_cases hec : e < c
          · exact hbelow e he hne hec
          · have h1 := hp3 e he (by omega)
            have h2 : e = p.numbers.nr := by omega
            rw [h2]
            exact (is_hidden_proc_iff_mem _ _).1 hh
        · have hsub : existing.filter (fun e => decide (p.numbers.nr + 1 ≤ e))
              = (existing.filter (fun e => decide (c ≤ e))).filter
                  (fun e => decide (p.numbers.nr + 1 ≤ e)) := by
            rw [List.filter_filter]
            apply List.filter_congr
            intro e _
            by_cases h1 : p.numbers.nr + 1 ≤ e
            · have : c ≤ e := by omega
              simp [h1, this]
            · simp [h1]
          have hlt : ((existing.filter (fun e => decide (c ≤ e))).filter
                  (fun e => decide (p.numbers.nr + 1 ≤ e))).length
              < (existing.filter (fun e => decide (c ≤ e))).length := by
            rw [List.length_filter_lt_length_iff_exists]
            exact ⟨p.numbers.nr, by simp [List.mem_filter, hp1, hp2], by simp⟩
          rw [hsub]
          omega
      · have hh2 : is_hidden_proc hidden p.numbers.nr = false := by simpa using hh
        refine ⟨some p, by simp [find_loop, hh2], hp1, by omega, ?_, ?_⟩
        · exact (is_hidden_proc_false_iff _ _).1 hh2
        · intro e he hne hnh
          by_cases hec : e < c
          · exact absurd (hbelow e he hne hec) hnh
          · exact hp3 e he (by omega)

theorem hidden_below_int_max (hidden : List Int) (M x : Int) (hM : M ≤ INT_MAX)
    (htop : M < INT_MAX ∨ is_hidden_proc hidden INT_MAX = false) (hx : x ≤ M)
    (hh : is_hidden_proc hidden x = true) : x < INT_MAX := by
  rcases htop with h | h
  · omega
  · have hne : x ≠ INT_MAX := by
      intro e
      rw [e, h] at hh
      exact Bool.false_ne_true hh
    omega

theorem find_ge_pid_bounded (existing : List Int) (M : Int) (hM : ∀ e ∈ existing, e ≤ M)
    (c : Int) (p : pid) (h : find_ge_pid existing c () = some p) :
    c ≤ p.numbers.nr ∧ p.numbers.nr ≤ M := by
  cases hr : smallest_ge existing c with
  | none => simp [find_ge_pid, hr] at h
  | some m =>
    simp only [find_ge_pid, hr, Option.map_some', Option.some.injEq] at h
    subst h
    obtain ⟨h1, h2, _⟩ := smallest_ge_some existing c m hr
    exact ⟨h2, hM m h1⟩

theorem find_loop_cursors_increase {ν : Type} (real : Int → ν → Option pid) (ns : ν)
    (hidden : List Int) (M : Int)
    (hreal : ∀ c p, INT_MIN ≤ c → c ≤ INT_MAX → real c ns = some p →
      c ≤ p.numbers.nr ∧ p.numbers.nr ≤ M)
    (hM : M ≤ INT_MAX) (htop : M < INT_MAX ∨ is_hidden_proc hidden INT_MAX = false) :
    ∀ (fuel : Nat) (c : Int), INT_MIN ≤ c → c ≤ INT_MAX →
      List.Chain' (fun a b => a < b) (c :: (find_loop real hidden ns fuel (real c ns)).1) := by
  intro fuel
  induction fuel with
  | zero =>
    intro c _ _
    cases hr : real c ns with
    | none => simp [find_loop]
    | some p =>
      by_cases hh : is_hidden_proc hidden p.numbers.nr = true <;> simp [find_loop, hh]
  | succ k ih =>
    intro c hc1 hc2
    cases hr : real c ns with
    | none => simp [find_loop]
    | some p =>
      obtain ⟨hp1, hp2⟩ := hreal c p hc1 hc2 hr
      by_cases hh : is_hidden_proc hidden p.numbers.nr = true
      · have hlt := hidden_below_int_max hidden M p.numbers.nr hM htop hp2 hh
        have hto : to_int (p.numbers.nr + 1) = p.numbers.nr + 1 :=
          to_int_of_range _ (by omega) (by omega)
        simp only [find_loop, hh, if_true, hto]
        rw [List.chain'_cons]
        exact ⟨by omega, ih (p.numbers.nr + 1) (by omega) (by omega)⟩
      · simp [find_loop, hh]

theorem find_loop_terminates {ν : Type} (real : Int → ν → Option pid) (ns : ν)
    (hidden : List Int) (M : Int)
    (hreal : ∀ c p, INT_MIN ≤ c → c ≤ INT_MAX → real c ns = some p →
      c ≤ p.numbers.nr ∧ p.numbers.nr ≤ M)
    (hM : M ≤ INT_MAX) (htop : M < INT_MAX ∨ is_hidden_proc hidden INT_MAX = false) :
    ∀ (fuel : Nat) (c : Int), INT_MIN ≤ c → c ≤ INT_MAX → (M + 1 - c).toNat ≤ fuel →
      ∃ r, (find_loop real hidden ns fuel (real c ns)).2 = some r := by
  intro fuel
  induction fuel with
  | zero =>
    intro c hc1 hc2 hf
    cases hr : real c ns with
    | none => exact ⟨none, by simp [find_loop]⟩
    | some p =>
      obtain ⟨hp1, hp2⟩ := hreal c p hc1 hc2 hr
      omega
  | succ k ih =>
    intro c hc1 hc2 hf
    cases hr : real c ns with
    | none => exact ⟨none, by simp [find_loop]⟩
    | some p =>
      obtain ⟨hp1, hp2⟩ := hreal c p hc1 hc2 hr
      by_cases hh : is_hidden_proc hidden p.numbers.nr = true
      · have hlt := hidden_below_int_max hidden M p.numbers.nr hM htop hp2 hh
        have hto : to_int (p.numbers.nr + 1) = p.numbers.nr + 1 :=
          to_int_of_range _ (by omega) (by omega)
        simp only [find_loop, hh, if_true, hto]
        exact ih (p.numbers.nr + 1) (by omega) (by omega) (by omega)
      · exact ⟨some p, by simp [find_loop, hh]⟩

theorem find_loop_top_spins (fuel : Nat) :
    (find_loop find_ge_pid_top [INT_MAX] () fuel (some ⟨⟨INT_MAX⟩⟩)).2 = none := by
  induction fuel with
  | zero => simp [find_loop, is_hidden_proc]
  | succ k ih =>
    have h1 : find_ge_pid_top (to_int (INT_MAX + 1)) () = some ⟨⟨INT_MAX⟩⟩ := by decide
    simp only [find_loop, is_hidden_proc, if_true, h1]
    exact ih

/-! ## Lemmas on sequences of operations -/

theorem unhide_loop_eq_erase (l : List Int) (p : Int) : unhide_loop l p = l.erase p := by
  induction l with
  | nil => simp [unhide_loop]
  | cons a t ih =>
    by_cases h : a = p
    · simp [unhide_loop, h]
    · simp [unhide_loop, h, List.erase_cons_tail, ih]

theorem mem_hide_process (l : List Int) (p x : Int) :
    x ∈ (hide_process l p).2 ↔ x = p ∨ x ∈ l := by
  unfold hide_process
  by_cases h : is_hidden_proc l p = true
  · have hm := (is_hidden_proc_iff_mem l p).1 h
    simp only [h, if_true]
    constructor
    · intro hx; exact Or.inr hx
    · rintro (rfl | hx)
      · exact hm
      · exact hx
  · simp only [h]
    simp [or_comm]

theorem nodup_hide_process (l : List Int) (p : Int) (h : l.Nodup) :
    (hide_process l p).2.Nodup := by
  unfold hide_process
  by_cases hp : is_hidden_proc l p = true
  · simpa [hp] using h
  · have hm : p ∉ l := fun hm => hp ((is_hidden_proc_iff_mem l p).2 hm)
    rw [if_neg hp]
    show (l ++ [p]).Nodup
    rw [List.nodup_append]
    refine ⟨h, List.nodup_singleton p, ?_⟩
    intro a ha hb
    rw [List.mem_singleton] at hb
    subst hb
    exact hm ha

theorem nodup_unhide_process (l : List Int) (p : Int) (h : l.Nodup) :
    (unhide_process l p).2.Nodup := by
  simp only [unhide_process, unhide_loop_eq_erase]
  exact h.erase p

theorem mem_unhide_process (l : List Int) (p x : Int) (h : l.Nodup) :
    x ∈ (unhide_process l p).2 ↔ x ≠ p ∧ x ∈ l := by
  simp only [unhide_process, unhide_loop_eq_erase]
  exact h.mem_erase_iff

theorem run_ops_snoc (l : List Int) (ops : List set_op) (op : set_op) :
    run_ops l (ops ++ [op]) = apply_op (run_ops l ops) op := by
  simp [run_ops, List.foldl_append]

theorem nodup_apply_op (l : List Int) (op : set_op) (h : l.Nodup) : (apply_op l op).Nodup := by
  cases op with
  | add id => exact nodup_hide_process l id h
  | del id => exact nodup_unhide_process l id h

theorem nodup_run_ops (l : List Int) (ops : List set_op) (h : l.Nodup) :
    (run_ops l ops).Nodup := by
  induction ops generalizing l with
  | nil => simpa [run_ops] using h
  | cons op rest ih =>
    have := ih (apply_op l op) (nodup_apply_op l op h)
    simpa [run_ops] using this

theorem nodup_of_reachable (l : List Int) (h : reachable l) : l.Nodup := by
  obtain ⟨ops, rfl⟩ := h
  exact nodup_run_ops [] ops List.nodup_nil

theorem last_naming_snoc (id : Int) (ops : List set_op) (op : set_op) :
    last_naming id (ops ++ [op]) = if names id op then some op else last_naming id ops := by
  simp [last_naming, List.find?_cons]
  cases h : names id op <;> simp

theorem is_hidden_run_ops (ops : List set_op) (id : Int) :
    is_hidden_proc (run_ops [] ops) id = last_op_is_add id ops := by
  induction ops using List.reverseRecOn with
  | nil => simp [run_ops, is_hidden_proc, last_op_is_add, last_naming]
  | append_singleton ops op ih =>
    have hnd : (run_ops [] ops).Nodup := nodup_run_ops [] ops List.nodup_nil
    rw [run_ops_snoc]
    unfold last_op_is_add at ih ⊢
    rw [last_naming_snoc]
    rw [Bool.eq_iff_iff, is_hidden_proc_iff_mem] at ih ⊢
    cases op with
    | add i =>
      simp only [apply_op, mem_hide_process, names]
      by_cases hi : i = id
      · simp [hi]
      · have hi2 : ¬ id = i := fun e => hi e.symm
        simp only [hi, hi2, decide_False, false_or]
        exact ih
    | del i =>
      simp only [apply_op, mem_unhide_process _ _ _ hnd, names]
      by_cases hi : i = id
      · simp [hi]
      · have hi2 : ¬ id = i := fun e => hi e.symm
        simp only [hi, hi2, decide_False, ne_eq, not_false_eq_true, true_and]
        exact ih

theorem unhide_loop_split (l : List Int) (p : Int) (h : p ∈ l) :
    ∃ pre post, l = pre ++ p :: post ∧ p ∉ pre ∧ unhide_loop l p = pre ++ post := by
  induction l with
  | nil => simp at h
  | cons a t ih =>
    by_cases ha : a = p
    · exact ⟨[], t, by simp [ha], by simp, by simp [unhide_loop, ha]⟩
    · have ht : p ∈ t := by
        rcases List.mem_cons.1 h with e | e
        · exact absurd e.symm ha
        · exact e
      obtain ⟨pre, post, h1, h2, h3⟩ := ih ht
      refine ⟨a :: pre, post, by simp [h1], ?_, by simp [unhide_loop, ha, h3]⟩
      intro hm
      rcases List.mem_cons.1 hm with e | e
      · exact ha e.symm
      · exact h2 e

theorem unhide_loop_eq_filter (l : List Int) (p : Int) (h : l.Nodup) :
    unhide_loop l p = l.filter (fun x => decide (x ≠ p)) := by
  rw [unhide_loop_eq_erase, h.erase_eq_filter]
  apply List.filter_congr
  intro x _
  rw [Bool.eq_iff_iff]
  simp

theorem unhide_loop_absent (l : List Int) (p : Int) (h : p ∉ l) : unhide_loop l p = l := by
  rw [unhide_loop_eq_erase]
  exact List.erase_of_not_mem h

/-! ## Lemmas on `device_write` -/

theorem take_three_message (buffer : List Nat) (h : 3 ≤ buffer.length) :
    (buffer ++ [0]).take 3 = buffer.take 3 :=
  List.take_append_of_le_length h

theorem device_write_short (u : indeterminate) (hidden : List Int) (buffer : List Nat)
    (offset : Nat) (h : buffer.length < 3) :
    device_write u hidden buffer offset = some ⟨-EAGAIN, hidden, offset, []⟩ := by
  have h4 : add_message.length - 1 = 3 := by decide
  have h5 : del_message.length - 1 = 3 := by decide
  simp only [device_write, h4, h5, h, and_self, if_true]

theorem device_write_null (u : indeterminate) (hidden : List Int) (buffer : List Nat)
    (offset : Nat) (hlen : 3 ≤ buffer.length) (hk : KMALLOC_MAX_SIZE < buffer.length + 1) :
    device_write u hidden buffer offset = none := by
  have h4 : add_message.length - 1 = 3 := by decide
  have h5 : del_message.length - 1 = 3 := by decide
  have hnot : ¬ (buffer.length < 3) := by omega
  simp only [device_write, h4, h5, hnot, and_self, if_false, hk, if_true]

theorem device_write_other (u : indeterminate) (hidden : List Int) (buffer : List Nat)
    (offset : Nat) (hlen : 3 ≤ buffer.length) (hk : buffer.length + 1 ≤ KMALLOC_MAX_SIZE)
    (hadd : buffer.take 3 ≠ ascii "add") (hdel : buffer.take 3 ≠ ascii "del") :
    device_write u hidden buffer offset
      = some ⟨-EAGAIN, hidden, offset,
          [call.kmalloc (buffer.length + 1), call.memcmp add_message,
            call.memcmp del_message, call.kfree]⟩ := by
  have h4 : add_message.length - 1 = 3 := by decide
  have h5 : del_message.length - 1 = 3 := by decide
  have h6 : add_message.take 3 = ascii "add" := by decide
  have h7 : del_message.take 3 = ascii "del" := by decide
  have hnot : ¬ (buffer.length < 3) := by omega
  have hk2 : ¬ (KMALLOC_MAX_SIZE < buffer.length + 1) := by omega
  simp only [device_write, h4, h5, hnot, and_self, if_false, hk2,
    take_three_message buffer hlen, h6, h7, hadd, hdel]

/-! ## Lemmas on decimal text -/

theorem decimal_fuel_digits (fuel n : Nat) :
    ∀ b ∈ decimal_fuel fuel n, 48 ≤ b ∧ b ≤ 57 := by
  induction fuel generalizing n with
  | zero => simp [decimal_fuel]
  | succ k ih =>
    intro b hb
    unfold decimal_fuel at hb
    by_cases hn : n < 10
    · simp only [hn, if_true, List.mem_singleton] at hb
      omega
    · simp only [hn, if_false, List.mem_append, List.mem_singleton] at hb
      rcases hb with hb | hb
      · exact ih _ b hb
      · omega

theorem decimal_fuel_ne_nil (fuel n : Nat) : decimal_fuel (fuel + 1) n ≠ [] := by
  unfold decimal_fuel
  by_cases hn : n < 10 <;> simp [hn]

theorem decimal_fuel_value (fuel n : Nat) (h : n < fuel) :
    digits_value 0 (decimal_fuel fuel n) = n := by
  induction fuel generalizing n with
  | zero => omega
  | succ k ih =>
    unfold decimal_fuel
    by_cases hn : n < 10
    · simp [hn, digits_value]
    · have hk : n / 10 < k := by omega
      have := ih (n / 10) hk
      unfold digits_value at this ⊢
      simp only [hn, if_false, List.foldl_append, this, List.foldl_cons, List.foldl_nil]
      omega

theorem decimal_fuel_length (fuel n k : Nat) (hk : 1 ≤ k) (h : n < 10 ^ k) :
    (decimal_fuel fuel n).length ≤ k := by
  induction fuel generalizing n k with
  | zero => simp [decimal_fuel]
  | succ f ih =>
    unfold decimal_fuel
    by_cases hn : n < 10
    · simp [hn, hk]
    · obtain ⟨j, rfl⟩ : ∃ j, k = j + 1 := ⟨k - 1, by omega⟩
      have hj : 1 ≤ j := by
        rcases Nat.eq_zero_or_pos j with h0 | h0
        · subst h0
          simp at h
          omega
        · exact h0
      have hdiv : n / 10 < 10 ^ j := by
        rw [pow_succ] at h
        exact Nat.div_lt_of_lt_mul (by rw [Nat.mul_comm]; exact h)
      have := ih (n / 10) j hj hdiv
      simp only [hn, if_false, List.length_append, List.length_singleton]
      omega

theorem parse_integer_digits (ds rest : List Nat) (acc cnt : Nat)
    (hds : ∀ b ∈ ds, 48 ≤ b ∧ b ≤ 57) (hrest : rest = [] ∨ rest = [10]) :
    parse_integer (ds ++ rest) acc cnt = (digits_value acc ds, cnt + ds.length, rest) := by
  induction ds generalizing acc cnt with
  | nil =>
    rcases hrest with rfl | rfl <;> simp [parse_integer, digits_value]
  | cons b t ih =>
    have hb := hds b (List.mem_cons_self _ _)
    have ht : ∀ x ∈ t, 48 ≤ x ∧ x ≤ 57 := fun x hx => hds x (List.mem_cons_of_mem _ hx)
    have hstep : parse_integer (b :: (t ++ rest)) acc cnt
        = parse_integer (t ++ rest) (acc * 10 + (b - 48)) (cnt + 1) := by
      simp only [parse_integer, hb, and_self, if_true]
    rw [List.cons_append, hstep, ih _ _ ht]
    simp only [digits_value, List.foldl_cons, List.length_cons]
    congr 2
    omega

theorem kstrtoull_digits_decimal (n : Nat) (h : n ≤ 18446744073709551615) :
    kstrtoull_digits (decimal_fuel (n + 1) n) = Except.ok n := by
  have hp := parse_integer_digits (decimal_fuel (n + 1) n) [] 0 0
    (decimal_fuel_digits _ _) (Or.inl rfl)
  rw [List.append_nil, decimal_fuel_value (n + 1) n (by omega)] at hp
  have hlen : (decimal_fuel (n + 1) n).length ≠ 0 := by
    intro h0
    exact decimal_fuel_ne_nil n n (List.length_eq_zero.1 h0)
  have hnot : ¬ (18446744073709551615 < n) := by omega
  simp [kstrtoull_digits, hp, hnot, hlen]

theorem format_d_neg (i : Int) (h : i < 0) :
    format_d i = 45 :: decimal_fuel (i.natAbs + 1) i.natAbs := by
  simp [format_d, h]

theorem format_d_nonneg (i : Int) (h : 0 ≤ i) :
    format_d i = decimal_fuel (i.natAbs + 1) i.natAbs := by
  have : ¬ i < 0 := by omega
  simp [format_d, this]

theorem format_d_bytes (i : Int) : ∀ b ∈ format_d i, b = 45 ∨ (48 ≤ b ∧ b ≤ 57) := by
  intro b hb
  by_cases h : i < 0
  · rw [format_d_neg i h] at hb
    rcases List.mem_cons.1 hb with hb | hb
    · exact Or.inl hb
    · exact Or.inr (decimal_fuel_digits _ _ b hb)
  · rw [format_d_nonneg i (by omega)] at hb
    exact Or.inr (decimal_fuel_digits _ _ b hb)

theorem decimal_head (n : Nat) :
    ∃ b t, decimal_fuel (n + 1) n = b :: t ∧ 48 ≤ b ∧ b ≤ 57 := by
  cases h : decimal_fuel (n + 1) n with
  | nil => exact absurd h (decimal_fuel_ne_nil n n)
  | cons b t =>
    have hb := decimal_fuel_digits (n + 1) n b (by rw [h]; exact List.mem_cons_self _ _)
    exact ⟨b, t, rfl, hb⟩

theorem kstrtol_format_d (i : Int) (h1 : -9223372036854775808 ≤ i)
    (h2 : i ≤ 9223372036854775807) : kstrtol (format_d i) = (0, some i) := by
  by_cases h : i < 0
  · rw [format_d_neg i h]
    have hk := kstrtoull_digits_decimal i.natAbs (by omega)
    have hnot : ¬ (9223372036854775808 < i.natAbs) := by omega
    simp only [kstrtol, List.head?_cons, List.tail_cons, if_true, hk, hnot, if_false]
    congr 2
    omega
  · rw [format_d_nonneg i (by omega)]
    obtain ⟨b, t, hbt, hb1, hb2⟩ := decimal_head i.natAbs
    have hk := kstrtoull_digits_decimal i.natAbs (by omega)
    rw [hbt] at hk ⊢
    have hnot : ¬ (9223372036854775807 < i.natAbs) := by omega
    have h45 : ¬ b = 45 := by omega
    have h43 : ¬ b = 43 := by omega
    simp only [kstrtol, List.head?_cons, Option.some.injEq, h45, h43, if_false, hk, hnot]
    congr 2
    omega

theorem format_d_injective : Function.Injective format_d := by
  intro i j hij
  have hv : ∀ n : Nat, digits_value 0 (decimal_fuel (n + 1) n) = n :=
    fun n => decimal_fuel_value (n + 1) n (by omega)
  by_cases hi : i < 0
  · by_cases hj : j < 0
    · rw [format_d_neg i hi, format_d_neg j hj] at hij
      have := congrArg (digits_value 0) (List.cons.inj hij).2
      rw [hv, hv] at this
      omega
    · rw [format_d_neg i hi, format_d_nonneg j (by omega)] at hij
      have hm := decimal_fuel_digits (j.natAbs + 1) j.natAbs 45
        (by rw [← hij]; exact List.mem_cons_self _ _)
      omega
  · by_cases hj : j < 0
    · rw [format_d_nonneg i (by omega), format_d_neg j hj] at hij
      have hm := decimal_fuel_digits (i.natAbs + 1) i.natAbs 45
        (by rw [hij]; exact List.mem_cons_self _ _)
      omega
    · rw [format_d_nonneg i (by omega), format_d_nonneg j (by omega)] at hij
      have := congrArg (digits_value 0) hij
      rw [hv, hv] at this
      omega

theorem sprintf_pid_injective : Function.Injective sprintf_pid := by
  intro i j hij
  unfold sprintf_pid at hij
  exact format_d_injective (List.append_cancel_left (List.append_cancel_right hij))

theorem format_d_length (id : Int) (h1 : -99999 ≤ id) (h2 : id ≤ 999999) :
    (format_d id).length ≤ 6 := by
  by_cases h : id < 0
  · rw [format_d_neg id h]
    have := decimal_fuel_length (id.natAbs + 1) id.natAbs 5 (by omega) (by omega)
    simp only [List.length_cons]
    omega
  · rw [format_d_nonneg id (by omega)]
    exact decimal_fuel_length (id.natAbs + 1) id.natAbs 6 (by omega) (by omega)

theorem format_d_length_int (N : Int) (h1 : INT_MIN ≤ N) (h2 : N ≤ INT_MAX) :
    (format_d N).length ≤ 11 := by
  unfold INT_MIN at h1
  unfold INT_MAX at h2
  by_cases h : N < 0
  · rw [format_d_neg N h]
    have := decimal_fuel_length (N.natAbs + 1) N.natAbs 10 (by omega) (by omega)
    simp only [List.length_cons]
    omega
  · rw [format_d_nonneg N (by omega)]
    have := decimal_fuel_length (N.natAbs + 1) N.natAbs 10 (by omega) (by omega)
    omega

theorem sprintf_pid_length (id : Int) :
    (sprintf_pid id).length = (format_d id).length + 6 := by
  have h : (ascii "pid: ").length = 5 := by decide
  simp only [sprintf_pid, List.length_append, h, List.length_singleton]
  omega

theorem sprintf_pid_fits (id : Int) (h1 : -99999 ≤ id) (h2 : id ≤ 999999) :
    ¬ (MAX_MESSAGE_SIZE < (sprintf_pid id).length + 1) := by
  have := format_d_length id h1 h2
  have hm : MAX_MESSAGE_SIZE = 13 := by decide
  rw [sprintf_pid_length, hm]
  omega

/-! ## Lemmas on the round trip through the device -/

theorem takeWhile_nonzero (xs ys : List Nat) (h : ∀ b ∈ xs, b ≠ 0) :
    (xs ++ 0 :: ys).takeWhile (fun b => decide (b ≠ 0)) = xs := by
  induction xs with
  | nil => simp
  | cons a t ih =>
    have ha : a ≠ 0 := h a (List.mem_cons_self _ _)
    have ht : ∀ b ∈ t, b ≠ 0 := fun b hb => h b (List.mem_cons_of_mem _ hb)
    have hd : decide (a ≠ 0) = true := decide_eq_true ha
    rw [List.cons_append, List.takeWhile_cons]
    simp only [hd, if_true]
    rw [ih ht]

theorem c_string_command (tok : List Nat) (htok : tok.length = 4) (N : Int)
    (past : List Nat) :
    c_string (((tok ++ format_d N) ++ [0]) ++ past) 4 = format_d N := by
  have hshape : ((tok ++ format_d N) ++ [0]) ++ past = tok ++ (format_d N ++ 0 :: past) := by
    simp [List.append_assoc]
  unfold c_string
  rw [hshape, List.drop_left' htok]
  apply takeWhile_nonzero
  intro b hb
  rcases format_d_bytes N b hb with h | h <;> omega

theorem device_write_add_decimal (u : indeterminate) (hidden : List Int) (N : Int)
    (offset : Nat) (h1 : INT_MIN ≤ N) (h2 : N ≤ INT_MAX) :
    ∃ w, device_write u hidden (ascii "add " ++ format_d N) offset = some w ∧
      w.hidden_proc = (hide_process hidden N).2 := by
  have ha : ascii "add " = [97, 100, 100, 32] := by decide
  have hl : add_message.length = 4 := by decide
  have hd : del_message.length = 4 := by decide
  have ht : add_message.take 3 = [97, 100, 100] := by decide
  have hc := c_string_command (ascii "add ") (by decide) N u.past_end
  have hk := kstrtol_format_d N (by unfold INT_MIN at h1; omega) (by unfold INT_MAX at h2; omega)
  have hfd := format_d_length_int N h1 h2
  have hlen : ¬ ((ascii "add " ++ format_d N).length < 3) := by
    rw [ha]
    simp only [List.length_append, List.length_cons, List.length_nil]
    omega
  have hmax : ¬ (KMALLOC_MAX_SIZE < (ascii "add " ++ format_d N).length + 1) := by
    rw [ha]
    simp only [List.length_append, List.length_cons, List.length_nil, KMALLOC_MAX_SIZE]
    omega
  have htake : ((ascii "add " ++ format_d N) ++ [0]).take 3 = [97, 100, 100] := by
    rw [ha]
    simp
  simp only [device_write, hl, hd, Nat.add_one_sub_one, hlen, and_self, if_false, hmax, htake,
    ht, if_true, hc, hk, to_int_of_range N h1 h2]
  exact ⟨_, rfl, rfl⟩

theorem device_write_del_decimal (u : indeterminate) (hidden : List Int) (N : Int)
    (offset : Nat) (h1 : INT_MIN ≤ N) (h2 : N ≤ INT_MAX) :
    ∃ w, device_write u hidden (ascii "del " ++ format_d N) offset = some w ∧
      w.hidden_proc = (unhide_process hidden N).2 := by
  have ha : ascii "del " = [100, 101, 108, 32] := by decide
  have hl : add_message.length = 4 := by decide
  have hd : del_message.length = 4 := by decide
  have ht : add_message.take 3 = [97, 100, 100] := by decide
  have ht2 : del_message.take 3 = [100, 101, 108] := by decide
  have hc := c_string_command (ascii "del ") (by decide) N u.past_end
  have hk := kstrtol_format_d N (by unfold INT_MIN at h1; omega) (by unfold INT_MAX at h2; omega)
  have hfd := format_d_length_int N h1 h2
  have hlen : ¬ ((ascii "del " ++ format_d N).length < 3) := by
    rw [ha]
    simp only [List.length_append, List.length_cons, List.length_nil]
    omega
  have hmax : ¬ (KMALLOC_MAX_SIZE < (ascii "del " ++ format_d N).length + 1) := by
    rw [ha]
    simp only [List.length_append, List.length_cons, List.length_nil, KMALLOC_MAX_SIZE]
    omega
  have htake : ((ascii "del " ++ format_d N) ++ [0]).take 3 = [100, 101, 108] := by
    rw [ha]
    simp
  have hne : ¬ ([100, 101, 108] = [97, 100, 100]) := by decide
  simp only [device_write, hl, hd, Nat.add_one_sub_one, hlen, and_self, if_false, hmax, htake,
    ht, ht2, hne, if_true, hc, hk, to_int_of_range N h1 h2]
  exact ⟨_, rfl, rfl⟩

theorem copy_to_user_end (user bytes : List Nat) :
    copy_to_user user user.length bytes = user ++ bytes := by
  simp [copy_to_user]

theorem read_loop_lines (l : List Int) (user : List Nat)
    (h : ∀ id ∈ l, ¬ (MAX_MESSAGE_SIZE < (sprintf_pid id).length + 1)) :
    read_loop l user user.length
      = some (user ++ (l.map sprintf_pid).flatten,
          (user ++ (l.map sprintf_pid).flatten).length) := by
  induction l generalizing user with
  | nil => simp [read_loop]
  | cons id rest ih =>
    have hid := h id (List.mem_cons_self _ _)
    have hrest : ∀ x ∈ rest, ¬ (MAX_MESSAGE_SIZE < (sprintf_pid x).length + 1) :=
      fun x hx => h x (List.mem_cons_of_mem _ hx)
    have hlen : user.length + (sprintf_pid id).length = (user ++ sprintf_pid id).length := by
      simp
    simp only [read_loop, hid, if_false, copy_to_user_end, hlen]
    rw [ih (user ++ sprintf_pid id) hrest]
    simp [List.append_assoc]

theorem lines_from_line (x rest cur : List Nat) (h : ∀ b ∈ x, b ≠ 10) :
    lines_from (x ++ 10 :: rest) cur = (cur ++ x ++ [10]) :: lines_from rest [] := by
  induction x generalizing cur with
  | nil => simp [lines_from]
  | cons a t ih =>
    have ha : a ≠ 10 := h a (List.mem_cons_self _ _)
    have ht : ∀ b ∈ t, b ≠ 10 := fun b hb => h b (List.mem_cons_of_mem _ hb)
    have hstep : lines_from (a :: (t ++ 10 :: rest)) cur
        = lines_from (t ++ 10 :: rest) (cur ++ [a]) := by
      simp only [lines_from, ha, if_false]
    rw [List.cons_append, hstep, ih _ ht]
    simp [List.append_assoc]

theorem lines_from_listing (l : List Int) :
    lines_from (l.map sprintf_pid).flatten [] = l.map sprintf_pid := by
  induction l with
  | nil => simp [lines_from]
  | cons id rest ih =>
    have hbody : ∀ b ∈ ascii "pid: " ++ format_d id, b ≠ 10 := by
      intro b hb
      rcases List.mem_append.1 hb with hb | hb
      · have hp : ascii "pid: " = [112, 105, 100, 58, 32] := by decide
        rw [hp] at hb
        simp at hb
        omega
      · rcases format_d_bytes id b hb with h | h <;> omega
    have hshape : ((id :: rest).map sprintf_pid).flatten
        = (ascii "pid: " ++ format_d id) ++ 10 :: (rest.map sprintf_pid).flatten := by
      simp [sprintf_pid, List.append_assoc]
    rw [hshape, lines_from_line _ _ _ hbody, ih]
    simp [sprintf_pid]

theorem device_read_listing (l : List Int) (len : Nat)
    (h : ∀ id ∈ l, -99999 ≤ id ∧ id ≤ 999999) :
    device_read l len 0
      = some ⟨((l.map sprintf_pid).flatten.length : Nat), (l.map sprintf_pid).flatten,
          (l.map sprintf_pid).flatten.length⟩ := by
  have hfit : ∀ id ∈ l, ¬ (MAX_MESSAGE_SIZE < (sprintf_pid id).length + 1) :=
    fun id hid => sprintf_pid_fits id (h id hid).1 (h id hid).2
  have := read_loop_lines l [] hfit
  simp only [List.length_nil, List.nil_append] at this
  simp [device_read, this]

theorem count_line_listing (l : List Int) (N : Int) :
    count_line (sprintf_pid N) (l.map sprintf_pid).flatten = l.count N := by
  unfold count_line
  rw [lines_from_listing]
  induction l with
  | nil => simp
  | cons id rest ih =>
    by_cases hid : id = N
    · subst hid
      simp only [List.map_cons, List.filter_cons, decide_True, if_true, List.length_cons, ih,
        List.count_cons_self]
    · have hne : ¬ sprintf_pid id = sprintf_pid N := fun e => hid (sprintf_pid_injective e)
      simp only [List.map_cons, List.filter_cons, hne, decide_False, Bool.false_eq_true,
        if_false, ih]
      rw [List.count_cons_of_ne (fun e => hid e.symm)]

theorem round_trip_within_message_size (u₁ u₂ : indeterminate) (hidden : List Int)
    (N : Int) (o₁ o₂ len : Nat) (hreach : reachable hidden)
    (hsmall : ∀ id ∈ hidden, -99999 ≤ id ∧ id ≤ 999999)
    (h1 : -99999 ≤ N) (h2 : N ≤ 999999) :
    ∃ w₁ w₂ r₁ r₂,
      device_write u₁ hidden (ascii "add " ++ format_d N) o₁ = some w₁ ∧
      device_read w₁.hidden_proc len 0 = some r₁ ∧
      count_line (sprintf_pid N) r₁.buffer = 1 ∧
      device_write u₂ w₁.hidden_proc (ascii "del " ++ format_d N) o₂ = some w₂ ∧
      device_read w₂.hidden_proc len 0 = some r₂ ∧
      count_line (sprintf_pid N) r₂.buffer = 0 := by
  have hN1 : INT_MIN ≤ N := by unfold INT_MIN; omega
  have hN2 : N ≤ INT_MAX := by unfold INT_MAX; omega
  have hnd : hidden.Nodup := nodup_of_reachable hidden hreach
  obtain ⟨w₁, hw₁, hl₁⟩ := device_write_add_decimal u₁ hidden N o₁ hN1 hN2
  obtain ⟨w₂, hw₂, hl₂⟩ := device_write_del_decimal u₂ w₁.hidden_proc N o₂ hN1 hN2
  have hnd1 : w₁.hidden_proc.Nodup := by
    rw [hl₁]
    exact nodup_hide_process hidden N hnd
  have hs1 : ∀ id ∈ w₁.hidden_proc, -99999 ≤ id ∧ id ≤ 999999 := by
    intro id hid
    rw [hl₁] at hid
    rcases (mem_hide_process hidden N id).1 hid with e | e
    · subst e
      exact ⟨h1, h2⟩
    · exact hsmall id e
  have hs2 : ∀ id ∈ w₂.hidden_proc, -99999 ≤ id ∧ id ≤ 999999 := by
    intro id hid
    rw [hl₂] at hid
    exact hs1 id ((mem_unhide_process _ N id hnd1).1 hid).2
  refine ⟨w₁, w₂, _, _, hw₁, device_read_listing _ len hs1, ?_, hw₂,
    device_read_listing _ len hs2, ?_⟩
  · rw [count_line_listing]
    apply List.count_eq_one_of_mem hnd1
    rw [hl₁]
    exact (mem_hide_process hidden N N).2 (Or.inl rfl)
  · rw [count_line_listing]
    apply List.count_eq_zero_of_not_mem
    intro hm
    rw [hl₂] at hm
    exact ((mem_unhide_process _ N N hnd1).1 hm).1 rfl

/-! ## Lemmas on the size of a listing line and on the parse position -/

theorem decimal_fuel_length_ge (fuel n k : Nat) (hf : n < fuel) (h : 10 ^ k ≤ n) :
    k + 1 ≤ (decimal_fuel fuel n).length := by
  induction fuel generalizing n k with
  | zero => omega
  | succ f ih =>
    unfold decimal_fuel
    by_cases hn : n < 10
    · cases k with
      | zero => simp [hn]
      | succ j =>
        have h1 : 1 ≤ 10 ^ j := Nat.one_le_pow _ _ (by omega)
        rw [pow_succ] at h
        omega
    · simp only [hn, if_false, List.length_append, List.length_singleton]
      cases k with
      | zero => omega
      | succ j =>
        have hdiv : 10 ^ j ≤ n / 10 := by
          rw [Nat.le_div_iff_mul_le (by omega)]
          rw [pow_succ] at h
          exact h
        have := ih (n / 10) j (by omega) hdiv
        omega

theorem format_d_length_gt (id : Int) (h : id < -99999 ∨ 999999 < id) :
    6 < (format_d id).length := by
  rcases h with h | h
  · rw [format_d_neg id (by omega)]
    have := decimal_fuel_length_ge (id.natAbs + 1) id.natAbs 5 (by omega) (by omega)
    simp only [List.length_cons]
    omega
  · rw [format_d_nonneg id (by omega)]
    have := decimal_fuel_length_ge (id.natAbs + 1) id.natAbs 6 (by omega) (by omega)
    omega

theorem sprintf_pid_fits_iff (id : Int) :
    (sprintf_pid id).length + 1 ≤ MAX_MESSAGE_SIZE ↔ -99999 ≤ id ∧ id ≤ 999999 := by
  have hm : MAX_MESSAGE_SIZE = 13 := by decide
  rw [sprintf_pid_length, hm]
  constructor
  · intro h
    by_contra hn
    have := format_d_length_gt id (by omega)
    omega
  · rintro ⟨h1, h2⟩
    have := format_d_length id h1 h2
    omega

theorem takeWhile_stops_at_nul (xs ys : List Nat) :
    (xs ++ 0 :: ys).takeWhile (fun b => decide (b ≠ 0))
      = (xs ++ [0]).takeWhile (fun b => decide (b ≠ 0)) := by
  induction xs with
  | nil => simp [List.takeWhile_cons]
  | cons a t ih =>
    rw [List.cons_append, List.cons_append, List.takeWhile_cons, List.takeWhile_cons, ih]

theorem c_string_inside_message (buffer past : List Nat) (h : 4 ≤ buffer.length) :
    c_string ((buffer ++ [0]) ++ past) 4 = c_string (buffer ++ [0]) 4 := by
  unfold c_string
  have h1 : ((buffer ++ [0]) ++ past).drop 4 = buffer.drop 4 ++ 0 :: past := by
    rw [List.append_assoc, List.drop_append_of_le_length h]
    rfl
  have h2 : (buffer ++ [0]).drop 4 = buffer.drop 4 ++ [0] :=
    List.drop_append_of_le_length h
  rw [h1, h2, takeWhile_stops_at_nul]

theorem device_read_len_irrelevant (hidden : List Int) (len₁ len₂ offset : Nat) :
    device_read hidden len₁ offset = device_read hidden len₂ offset := rfl

/-! ## Lemmas on the hook and the life cycle -/

theorem hook_install_of_unresolved (k : kernel) (h : hook_state)
    (hz : k.kallsyms_lookup_name h.hook.name = 0) :
    hook_install k h
      = (-ENOENT, ⟨⟨h.hook.name, h.hook.func, 0, h.hook.ops⟩, h.orig⟩,
          [kcall.kallsyms_lookup_name h.hook.name,
            kcall.printk_s "unresolved symbol: %s\n" h.hook.name]) := by
  have hne : -ENOENT ≠ 0 := by decide
  simp [hook_install, hook_resolve_addr, hz, hne]

theorem hook_install_of_refused (k : kernel) (h : hook_state)
    (hres : k.kallsyms_lookup_name h.hook.name ≠ 0)
    (harm : k.ftrace_set_filter_ip (k.kallsyms_lookup_name h.hook.name) 0 0 = 0)
    (hreg : k.register_ftrace_function ≠ 0) :
    hook_install k h
      = (k.register_ftrace_function,
          ⟨⟨h.hook.name, h.hook.func, k.kallsyms_lookup_name h.hook.name,
            ⟨ftrace_func.hook_ftrace_thunk,
              [ftrace_flag.FTRACE_OPS_FL_SAVE_REGS, ftrace_flag.FTRACE_OPS_FL_RECURSION_SAFE,
                ftrace_flag.FTRACE_OPS_FL_IPMODIFY]⟩⟩,
            k.kallsyms_lookup_name h.hook.name⟩,
          [kcall.kallsyms_lookup_name h.hook.name,
            kcall.store_orig (k.kallsyms_lookup_name h.hook.name),
            kcall.ftrace_set_filter_ip (k.kallsyms_lookup_name h.hook.name) 0 0,
            kcall.register_ftrace_function,
            kcall.printk_d "register_ftrace_function() failed: %d\n"
              k.register_ftrace_function,
            kcall.ftrace_set_filter_ip (k.kallsyms_lookup_name h.hook.name) 1 0]) := by
  simp [hook_install, hook_resolve_addr, hres, harm, hreg]

theorem hook_install_stores_first (k : kernel) (h : hook_state) :
    stored_before_armed (hook_install k h).2.2 = true := by
  by_cases hz : k.kallsyms_lookup_name h.hook.name = 0
  · rw [hook_install_of_unresolved k h hz]
    simp [stored_before_armed, arms]
  · by_cases harm : k.ftrace_set_filter_ip (k.kallsyms_lookup_name h.hook.name) 0 0 = 0
    · by_cases hreg : k.register_ftrace_function = 0
      · simp [hook_install, hook_resolve_addr, hz, harm, hreg, stored_before_armed, arms]
      · rw [hook_install_of_refused k h hz harm hreg]
        simp [stored_before_armed, arms]
    · simp [hook_install, hook_resolve_addr, hz, harm, stored_before_armed, arms]

theorem exit_loop_empties (l : List Int) : (exit_loop l).1 = [] := by
  induction l with
  | nil => rfl
  | cons a t ih => simpa [exit_loop] using ih

theorem exit_loop_calls (l : List Int) :
    (exit_loop l).2 = l.flatMap (fun id => [kcall.list_del id, kcall.kfree id]) := by
  induction l with
  | nil => rfl
  | cons a t ih => simp [exit_loop, ih]

theorem filter_printk_exit_loop (l : List Int) :
    (l.flatMap (fun id => [kcall.list_del id, kcall.kfree id])).filter
        (fun ev => !is_printk ev)
      = l.flatMap (fun id => [kcall.list_del id, kcall.kfree id]) := by
  induction l with
  | nil => rfl
  | cons a t ih =>
    rw [List.flatMap_cons, List.filter_append, ih]
    simp [is_printk]

theorem freed_exit_loop (l : List Int) :
    (l.flatMap (fun id => [kcall.list_del id, kcall.kfree id])).filterMap freed_node = l := by
  induction l with
  | nil => rfl
  | cons a t ih =>
    rw [List.flatMap_cons, List.filterMap_append, ih]
    simp [freed_node]

theorem filter_printk_hook_remove (k : kernel) (hook : ftrace_hook) :
    (hook_remove k hook).filter (fun ev => !is_printk ev)
      = [kcall.unregister_ftrace_function, kcall.ftrace_set_filter_ip hook.address 1 0] := by
  unfold hook_remove
  by_cases h1 : k.unregister_ftrace_function = 0 <;>
    by_cases h2 : k.ftrace_set_filter_ip hook.address 1 0 = 0 <;>
    simp [h1, h2, is_printk, List.filter_cons]

theorem freed_hook_remove (k : kernel) (hook : ftrace_hook) :
    (hook_remove k hook).filterMap freed_node = [] := by
  unfold hook_remove
  by_cases h1 : k.unregister_ftrace_function = 0 <;>
    by_cases h2 : k.ftrace_set_filter_ip hook.address 1 0 = 0 <;>
    simp [h1, h2, freed_node]

/-! ## Claims -/

/-- C1: whenever `hook_find_ge_pid` returns a pid record, whatever the hidden
list, the cursor and the original primitive, `is_hidden_proc` is false for that
record's number. -/
theorem hook_find_ge_pid_never_hidden {ν : Type} (real : Int → ν → Option pid)
    (hidden : List Int) (nr : Int) (ns : ν) (fuel : Nat) (p : pid)
    (h : (hook_find_ge_pid fuel real hidden nr ns).2 = some (some p)) :
    is_hidden_proc hidden p.numbers.nr = false :=
  find_loop_not_hidden real hidden ns fuel (real nr ns) p h

/-- C1 at existing identifiers 3, 5, 7, 9, 11 with 5 and 9 hidden and cursor 4:
the hook returns the record of 7, which is not hidden. -/
theorem hook_find_ge_pid_never_hidden_witness :
    (hook_find_ge_pid 5 (find_ge_pid [3, 5, 7, 9, 11]) [5, 9] 4 ()).2 = some (some ⟨⟨7⟩⟩) ∧
    is_hidden_proc [5, 9] 7 = false :=
  ⟨by decide,
    hook_find_ge_pid_never_hidden (find_ge_pid [3, 5, 7, 9, 11]) [5, 9] 4 () 5 ⟨⟨7⟩⟩
      (by decide)⟩

/-- C2 (amended): when the original primitive returns the smallest existing
identifier at or after its cursor (none when there is none), the existing
identifiers being C `int` values, and the identifier `INT_MAX` is not both
existing and hidden, then for every such hidden list and every `int` cursor
`n`, `hook_find_ge_pid` returns (with fuel for one retry per existing
identifier) the smallest existing identifier at or after `n` that is not
hidden, or `NULL` when no such identifier exists. -/
theorem hook_find_ge_pid_smallest_unhidden {ν : Type} (real : Int → ν → Option pid)
    (ns : ν) (existing hidden : List Int) (n : Int)
    (hreal : returns_smallest_ge real ns existing)
    (hint : ∀ e ∈ existing, e ≤ INT_MAX)
    (htop : INT_MAX ∈ existing → is_hidden_proc hidden INT_MAX = false)
    (hn1 : INT_MIN ≤ n) (hn2 : n ≤ INT_MAX)
    (fuel : Nat) (hfuel : existing.length ≤ fuel) :
    ∃ r, (hook_find_ge_pid fuel real hidden n ns).2 = some r ∧
      is_smallest_unhidden_ge existing hidden n r := by
  have hlen : (existing.filter (fun e => decide (n ≤ e))).length ≤ fuel :=
    le_trans (List.length_filter_le _ _) hfuel
  have hsafe : ∀ e ∈ existing, is_hidden_proc hidden e = true → e < INT_MAX := by
    intro e he hh
    have hne : e ≠ INT_MAX := by
      intro h
      rw [h] at he hh
      rw [htop he] at hh
      exact Bool.false_ne_true hh
    have := hint e he
    omega
  exact find_loop_smallest real ns existing hidden n hreal hsafe fuel n hn1 hn2 (le_refl _)
    (fun e _ h1 h2 => absurd h1 (by omega)) hlen

/-- C2, the spec's example: existing identifiers 3, 5, 7, 9, 11 with 5 and 9
hidden give 3 from cursor 0, 7 from 4, 11 from 8 and none from 12; the general
statement is applied at cursor 4. -/
theorem hook_find_ge_pid_smallest_unhidden_witness :
    (hook_find_ge_pid 5 (find_ge_pid [3, 5, 7, 9, 11]) [5, 9] 0 ()).2 = some (some ⟨⟨3⟩⟩) ∧
    (hook_find_ge_pid 5 (find_ge_pid [3, 5, 7, 9, 11]) [5, 9] 4 ()).2 = some (some ⟨⟨7⟩⟩) ∧
    (hook_find_ge_pid 5 (find_ge_pid [3, 5, 7, 9, 11]) [5, 9] 8 ()).2 = some (some ⟨⟨11⟩⟩) ∧
    (hook_find_ge_pid 5 (find_ge_pid [3, 5, 7, 9, 11]) [5, 9] 12 ()).2 = some none ∧
    ∃ r, (hook_find_ge_pid 5 (find_ge_pid [3, 5, 7, 9, 11]) [5, 9] 4 ()).2 = some r ∧
      is_smallest_unhidden_ge [3, 5, 7, 9, 11] [5, 9] 4 r :=
  ⟨by decide, by decide, by decide, by decide,
    hook_find_ge_pid_smallest_unhidden (find_ge_pid [3, 5, 7, 9, 11]) () [3, 5, 7, 9, 11]
      [5, 9] 4 (find_ge_pid_returns_smallest_ge _) (by decide) (by decide) (by decide)
      (by decide) 5 (by decide)⟩

/-- C2 as stated fails when the identifier `INT_MAX` exists and is hidden: with
existing identifiers 1 and 2147483647, the latter hidden, and cursor 2, the
retry cursor `2147483647 + 1` wraps to `INT_MIN` and the hook returns 1, which
is below the cursor, although no unhidden identifier at or after 2 exists. -/
theorem hook_find_ge_pid_wraps_at_int_max :
    returns_smallest_ge (find_ge_pid [1, 2147483647]) () [1, 2147483647] ∧
    (∀ fuel : Nat, hook_find_ge_pid (fuel + 1) (find_ge_pid [1, 2147483647])
        [2147483647] 2 () = ([2, -2147483648], some (some ⟨⟨1⟩⟩))) ∧
    ¬ is_smallest_unhidden_ge [1, 2147483647] [2147483647] 2 (some ⟨⟨1⟩⟩) := by
  refine ⟨find_ge_pid_returns_smallest_ge _, ?_, ?_⟩
  · intro fuel
    have h1 : find_ge_pid [1, 2147483647] 2 () = some ⟨⟨2147483647⟩⟩ := by decide
    have h3 : to_int 2147483648 = -2147483648 := by decide
    have h2 : find_ge_pid [1, 2147483647] (-2147483648) () = some ⟨⟨1⟩⟩ := by decide
    cases fuel <;>
      simp [hook_find_ge_pid, find_loop, h1, h2, is_hidden_proc, h3]
  · simp [is_smallest_unhidden_ge]

/-- C3 (amended): when every answer of the original primitive is at or after
the cursor it was given and at most a maximum `M`, where `M` is below `INT_MAX`
or `INT_MAX` is not hidden (so that `result + 1` never overflows a C `int` on a
retry), then for every `int` cursor `n` the cursors passed to the original
primitive strictly increase from each call to the next, and the loop exits
within `M + 1 - n` retries, returning `NULL` or a record that is not hidden. -/
theorem hook_find_ge_pid_terminates {ν : Type} (real : Int → ν → Option pid)
    (ns : ν) (hidden : List Int) (n M : Int)
    (hreal : ∀ c p, INT_MIN ≤ c → c ≤ INT_MAX → real c ns = some p →
      c ≤ p.numbers.nr ∧ p.numbers.nr ≤ M)
    (hM : M ≤ INT_MAX) (htop : M < INT_MAX ∨ is_hidden_proc hidden INT_MAX = false)
    (hn1 : INT_MIN ≤ n) (hn2 : n ≤ INT_MAX) :
    (∀ fuel : Nat,
      List.Chain' (fun a b => a < b) (hook_find_ge_pid fuel real hidden n ns).1) ∧
    (∀ fuel : Nat, (M + 1 - n).toNat ≤ fuel →
      ∃ r, (hook_find_ge_pid fuel real hidden n ns).2 = some r ∧
        ∀ p, r = some p → is_hidden_proc hidden p.numbers.nr = false) := by
  constructor
  · intro fuel
    exact find_loop_cursors_increase real ns hidden M hreal hM htop fuel n hn1 hn2
  · intro fuel hf
    obtain ⟨r, hr⟩ :=
      find_loop_terminates real ns hidden M hreal hM htop fuel n hn1 hn2 hf
    refine ⟨r, hr, ?_⟩
    intro p hp
    subst hp
    exact find_loop_not_hidden real hidden ns fuel (real n ns) p hr

/-- C3 at existing identifiers 3, 5, 7, 9, 11 (maximum 11), all of them hidden,
cursor -5: the loop retries five times, with cursors -5, 4, 6, 8, 10, 12, and
returns `NULL`; with only 5 and 9 hidden and cursor 4 it retries once, with
cursors 4, 6, and returns 7. -/
theorem hook_find_ge_pid_terminates_witness :
    hook_find_ge_pid 17 (find_ge_pid [3, 5, 7, 9, 11]) [3, 5, 7, 9, 11] (-5) ()
      = ([-5, 4, 6, 8, 10, 12], some none) ∧
    hook_find_ge_pid 17 (find_ge_pid [3, 5, 7, 9, 11]) [5, 9] 4 ()
      = ([4, 6], some (some ⟨⟨7⟩⟩)) ∧
    (∀ fuel : Nat, List.Chain' (fun a b => a < b)
      (hook_find_ge_pid fuel (find_ge_pid [3, 5, 7, 9, 11]) [3, 5, 7, 9, 11] (-5) ()).1) ∧
    (∀ fuel : Nat, (11 + 1 - (-5) : Int).toNat ≤ fuel →
      ∃ r, (hook_find_ge_pid fuel (find_ge_pid [3, 5, 7, 9, 11]) [3, 5, 7, 9, 11]
          (-5) ()).2 = some r ∧
        ∀ p, r = some p → is_hidden_proc [3, 5, 7, 9, 11] p.numbers.nr = false) :=
  ⟨by decide, by decide,
    hook_find_ge_pid_terminates (find_ge_pid [3, 5, 7, 9, 11]) () [3, 5, 7, 9, 11] (-5) 11
      (fun c p _ _ h => find_ge_pid_bounded [3, 5, 7, 9, 11] 11 (by decide) c p h)
      (by decide) (Or.inl (by decide)) (by decide) (by decide)⟩

/-- C3 as stated fails when the maximum is `INT_MAX` itself: an original
primitive that answers every cursor with identifier 2147483647 (at or after
every `int` cursor, bounded by the maximum), that identifier being hidden,
keeps the loop going for ever, and the retry cursor `2147483647 + 1` wraps to
`-2147483648`, below the cursor 0 before it. -/
theorem hook_find_ge_pid_spins_at_int_max :
    (∀ c p, find_ge_pid_top c () = some p →
      c ≤ p.numbers.nr ∧ p.numbers.nr ≤ 2147483647) ∧
    (∀ fuel : Nat, (hook_find_ge_pid fuel find_ge_pid_top [2147483647] 0 ()).2 = none) ∧
    (hook_find_ge_pid 2 find_ge_pid_top [2147483647] 0 ()).1
      = [0, -2147483648, -2147483648] ∧
    ¬ List.Chain' (fun a b => a < b)
      (hook_find_ge_pid 2 find_ge_pid_top [2147483647] 0 ()).1 := by
  have hl : (hook_find_ge_pid 2 find_ge_pid_top [2147483647] 0 ()).1
      = [0, -2147483648, -2147483648] := by decide
  refine ⟨?_, ?_, hl, ?_⟩
  · intro c p h
    unfold find_ge_pid_top at h
    by_cases hc : c ≤ INT_MAX
    · simp only [hc, if_true, Option.some.injEq] at h
      subst h
      exact ⟨hc, le_refl _⟩
    · simp [hc] at h
  · intro fuel
    exact find_loop_top_spins fuel
  · rw [hl]
    simp [List.chain'_cons]

/-- C4: after any sequence of `hide_process` / `unhide_process` calls on the
empty list, `is_hidden_proc` holds of an id exactly when the last operation
naming that id is an add; in particular adding an id twice and deleting it once
leaves it not contained. -/
theorem is_hidden_proc_last_op :
    (∀ (ops : List set_op) (id : Int),
      is_hidden_proc (run_ops [] ops) id = last_op_is_add id ops) ∧
    (∀ id : Int,
      is_hidden_proc (run_ops [] [set_op.add id, set_op.add id, set_op.del id]) id
        = false) := by
  refine ⟨is_hidden_run_ops, ?_⟩
  intro id
  rw [is_hidden_run_ops]
  simp [last_op_is_add, last_naming, names]

/-- C5: every list reached from the empty one by `hide_process` and
`unhide_process` holds no identifier twice; `hide_process` of an id already in
the list returns `SUCCESS` with the list unchanged, so hiding the same id twice
equals hiding it once. -/
theorem hidden_list_unique :
    (∀ ops : List set_op, (run_ops [] ops).Nodup) ∧
    (∀ (l : List Int) (id : Int), is_hidden_proc l id = true →
      hide_process l id = (SUCCESS, l)) ∧
    (∀ (l : List Int) (id : Int),
      hide_process (hide_process l id).2 id = (SUCCESS, (hide_process l id).2)) := by
  have key : ∀ (l : List Int) (id : Int), is_hidden_proc l id = true →
      hide_process l id = (SUCCESS, l) := by
    intro l id h
    simp [hide_process, h]
  refine ⟨fun ops => nodup_run_ops [] ops List.nodup_nil, key, ?_⟩
  intro l id
  apply key
  rw [is_hidden_proc_iff_mem, mem_hide_process]
  exact Or.inl rfl

/-- C5 at the list made by hiding 3, 7, 3 and unhiding 7: it is `[3]`, hiding 3
again leaves it as it is, and so does hiding 3 twice. -/
theorem hidden_list_unique_witness :
    run_ops [] [set_op.add 3, set_op.add 7, set_op.add 3, set_op.del 7] = [3] ∧
    (run_ops [] [set_op.add 3, set_op.add 7, set_op.add 3, set_op.del 7]).Nodup ∧
    hide_process [3] 3 = (SUCCESS, [3]) :=
  ⟨by decide, hidden_list_unique.1 _, hidden_list_unique.2.1 [3] 3 (by decide)⟩

/-- C6: `unhide_process` of an id that is not in the list returns `SUCCESS` and
the very same list; of an id that is in the list, it returns `SUCCESS` and
unlinks the first node holding that id, the nodes before and after it staying
in place; on a list without duplicates the result is the list with that id
filtered out. -/
theorem unhide_process_frame (l : List Int) (id : Int) :
    (is_hidden_proc l id = false → unhide_process l id = (SUCCESS, l)) ∧
    (is_hidden_proc l id = true →
      ∃ pre post, l = pre ++ id :: post ∧ is_hidden_proc pre id = false ∧
        unhide_process l id = (SUCCESS, pre ++ post)) ∧
    (l.Nodup → unhide_process l id = (SUCCESS, l.filter (fun x => decide (x ≠ id))) ∧
      is_hidden_proc (unhide_process l id).2 id = false) := by
  refine ⟨?_, ?_, ?_⟩
  · intro h
    rw [is_hidden_proc_false_iff] at h
    simp [unhide_process, unhide_loop_absent l id h]
  · intro h
    rw [is_hidden_proc_iff_mem] at h
    obtain ⟨pre, post, h1, h2, h3⟩ := unhide_loop_split l id h
    exact ⟨pre, post, h1, (is_hidden_proc_false_iff _ _).2 h2, by simp [unhide_process, h3]⟩
  · intro h
    refine ⟨by simp [unhide_process, unhide_loop_eq_filter l id h], ?_⟩
    rw [is_hidden_proc_false_iff, mem_unhide_process l id id h]
    simp

/-- C6 at the list 4, 8, 15: unhiding the absent 9 changes nothing, unhiding 8
leaves 4, 15. -/
theorem unhide_process_frame_witness :
    unhide_process [4, 8, 15] 9 = (SUCCESS, [4, 8, 15]) ∧
    unhide_process [4, 8, 15] 8 = (SUCCESS, [4, 15]) ∧
    (unhide_process [4, 8, 15] 8
        = (SUCCESS, [4, 8, 15].filter (fun x => decide (x ≠ 8))) ∧
      is_hidden_proc (unhide_process [4, 8, 15] 8).2 8 = false) :=
  ⟨(unhide_process_frame [4, 8, 15] 9).1 (by decide), by decide,
    (unhide_process_frame [4, 8, 15] 8).2.2 (by decide)⟩

/-- C7, the code on the round trip: for the spec's example 42 the listing after
`add 42` is exactly the line `pid: 42` and after `del 42` it is empty; for the
identifier 1000000, `add 1000000` hides it and the following `device_read`
formats 13 characters and a NUL, 14 bytes, into the 13 bytes of `message`: the
read overruns the array instead of producing the line. The same holds of
`-2147483648`, whose line needs 18 bytes. -/
theorem round_trip_overruns_message :
    (device_write ⟨0, []⟩ [] (ascii "add 42") 0).map (fun w => w.hidden_proc)
      = some [42] ∧
    device_read [42] 64 0 = some ⟨8, ascii "pid: 42\n", 8⟩ ∧
    (device_write ⟨0, []⟩ [42] (ascii "del 42") 0).map (fun w => w.hidden_proc)
      = some [] ∧
    device_read [] 64 0 = some ⟨0, [], 0⟩ ∧
    (device_write ⟨0, []⟩ [] (ascii "add 1000000") 0).map (fun w => w.hidden_proc)
      = some [1000000] ∧
    sprintf_pid 1000000 = ascii "pid: 1000000\n" ∧
    (sprintf_pid 1000000).length + 1 = 14 ∧
    MAX_MESSAGE_SIZE = 13 ∧
    device_read [1000000] 64 0 = none ∧
    (device_write ⟨0, []⟩ [] (ascii "add -2147483648") 0).map (fun w => w.hidden_proc)
      = some [-2147483648] ∧
    (sprintf_pid (-2147483648)).length + 1 = 18 ∧
    device_read [-2147483648] 64 0 = none := by
  refine ⟨by decide, by decide, by decide, by decide, by decide, by decide, by decide,
    by decide, by decide, by decide, by decide, by decide⟩

/-- C8, the code at writes whose integer does not parse: for `"add abc"`,
`"add "` and `"add5"` on an empty hidden list, `kstrtol` fails with `-EINVAL`
and leaves `pid` as it was, `device_write` nevertheless returns the length
(success) and hides whatever the uninitialised `pid` holds, so the list is no
longer empty. -/
theorem device_write_parse_failure_mutates (u : indeterminate) :
    kstrtol (ascii "abc") = (-EINVAL, none) ∧
    device_write u [] (ascii "add abc") 0
      = some ⟨7, [to_int u.pid], 7,
          [call.kmalloc 8, call.memcmp add_message, call.kstrtol (ascii "abc") (-EINVAL),
            call.hide_process (to_int u.pid), call.kfree]⟩ ∧
    (device_write u [] (ascii "add ") 0).map (fun w => (w.ret, w.hidden_proc))
      = some (4, [to_int u.pid]) ∧
    (device_write u [] (ascii "add5") 0).map (fun w => (w.ret, w.hidden_proc))
      = some (4, [to_int u.pid]) ∧
    (device_write u [5] (ascii "del x") 0).map (fun w => (w.ret, w.hidden_proc))
      = some (5, (unhide_process [5] (to_int u.pid)).2) :=
  ⟨by decide, rfl, rfl, rfl, rfl⟩

/-- C9, the code on writes with an unknown token: as long as `kmalloc` serves
the `len + 1` bytes, a write of at least three bytes whose first three bytes
are neither `add` nor `del` returns `-EAGAIN` with the hidden list and the
offset unchanged, after the two token comparisons and without any call of
`kstrtol`, `hide_process` or `unhide_process` (so for the spec's `"adx 5"`);
but a write of 8 MiB that starts with `adx` asks `kmalloc` for more than
`KMALLOC_MAX_SIZE`, gets `NULL`, and the unchecked `memset` faults on it: no
`-EAGAIN` is returned. Every write of three bytes or more above that size
ends the same way. -/
theorem device_write_unknown_token_faults :
    (∀ (u : indeterminate) (hidden : List Int) (buffer : List Nat) (offset : Nat),
      3 ≤ buffer.length → buffer.length + 1 ≤ KMALLOC_MAX_SIZE →
      buffer.take 3 ≠ ascii "add" → buffer.take 3 ≠ ascii "del" →
      device_write u hidden buffer offset
        = some ⟨-EAGAIN, hidden, offset,
            [call.kmalloc (buffer.length + 1), call.memcmp add_message,
              call.memcmp del_message, call.kfree]⟩) ∧
    device_write ⟨0, []⟩ [5, 9] (ascii "adx 5") 0
      = some ⟨-11, [5, 9], 0,
          [call.kmalloc 6, call.memcmp add_message, call.memcmp del_message, call.kfree]⟩ ∧
    KMALLOC_MAX_SIZE = 4194304 ∧
    (ascii "adx" ++ List.replicate 8388605 32).length = 8388608 ∧
    (ascii "adx" ++ List.replicate 8388605 32).take 3 = ascii "adx" ∧
    device_write ⟨0, []⟩ [5, 9] (ascii "adx" ++ List.replicate 8388605 32) 0 = none ∧
    (∀ (u : indeterminate) (hidden : List Int) (buffer : List Nat) (offset : Nat),
      3 ≤ buffer.length → KMALLOC_MAX_SIZE < buffer.length + 1 →
      device_write u hidden buffer offset = none) := by
  have h3 : (ascii "adx").length = 3 := by decide
  have hlen : (ascii "adx" ++ List.replicate 8388605 32).length = 8388608 := by
    rw [List.length_append, List.length_replicate, h3]
  have hmax : KMALLOC_MAX_SIZE = 4194304 := by decide
  refine ⟨device_write_other, by decide, hmax, hlen, List.take_left' h3, ?_, device_write_null⟩
  apply device_write_null
  · rw [hlen]
    omega
  · rw [hlen, hmax]
    omega

/-- C10: a write shorter than three bytes makes `device_write` return `-EAGAIN`
at once: no call is made (no allocation, no token comparison, no integer
parsing), and the hidden list and the offset are unchanged. -/
theorem device_write_too_short (u : indeterminate) (hidden : List Int)
    (buffer : List Nat) (offset : Nat) (hlen : buffer.length < 3) :
    device_write u hidden buffer offset = some ⟨-EAGAIN, hidden, offset, []⟩ :=
  device_write_short u hidden buffer offset hlen

/-- C10 at the two-byte write `"ad"` to the hidden list 5, 9: return value -11,
list 5, 9, offset 0, no call. -/
theorem device_write_too_short_witness :
    device_write ⟨0, []⟩ [5, 9] (ascii "ad") 0 = some ⟨-11, [5, 9], 0, []⟩ :=
  device_write_too_short ⟨0, []⟩ [5, 9] (ascii "ad") 0 (by decide)

/-- C11, the code on listings: the empty list gives zero bytes and return
value 0, the list 3, -7, 42 gives its three lines in list order with return
value and offset 23, but for the list 42, 1000000 (reached by `add 42` and
`add 1000000`) the second line takes 14 bytes with its NUL and `sprintf`
overruns the 13 bytes of `message`: no listing is produced. -/
theorem device_read_listing_overruns :
    device_read [] 64 0 = some ⟨0, [], 0⟩ ∧
    device_read [3, -7, 42] 64 0
      = some ⟨23, ascii "pid: 3\npid: -7\npid: 42\n", 23⟩ ∧
    run_ops [] [set_op.add 42, set_op.add 1000000] = [42, 1000000] ∧
    (sprintf_pid 1000000).length + 1 = 14 ∧
    MAX_MESSAGE_SIZE = 13 ∧
    device_read [42, 1000000] 64 0 = none := by
  refine ⟨by decide, by decide, by decide, by decide, by decide, by decide⟩

/-- C12: at a stream offset other than zero `device_read` returns 0, stores
nothing in the user buffer and leaves the offset as it is, whatever the hidden
list and the requested length; the list is only an input of `device_read`. -/
theorem device_read_nonzero_offset (hidden : List Int) (len offset : Nat)
    (h : offset ≠ 0) :
    device_read hidden len offset = some ⟨0, [], offset⟩ := by
  unfold device_read
  rw [if_pos h]

/-- C12 at the hidden list 1, 2, 3 and offset 5. -/
theorem device_read_nonzero_offset_witness :
    device_read [1, 2, 3] 64 5 = some ⟨0, [], 5⟩ :=
  device_read_nonzero_offset [1, 2, 3] 64 5 (by decide)

/-- C13, the code when the symbol does not resolve: `_hideproc_init` returns 0
in every run; in a kernel where `find_ge_pid` does not resolve, `hook_install`
returns `-ENOENT`, `init_hook` drops that value, and `_hideproc_init` still
returns 0, with no filter armed, nothing registered and `real_find_ge_pid`
left `NULL`. -/
theorem hideproc_init_drops_resolution_failure :
    (∀ (k : kernel) (replacement : Nat) (d : hideproc_data_t),
      (_hideproc_init k replacement d).1 = 0) ∧
    (hook_install kernel_without_symbols
      ⟨⟨"find_ge_pid", 77, 0, ⟨ftrace_func.unset, []⟩⟩, 0⟩).1 = -ENOENT ∧
    _hideproc_init kernel_without_symbols 77 ⟨⟨"", 0, 0, ⟨ftrace_func.unset, []⟩⟩, [], 0⟩
      = (0, ⟨⟨"find_ge_pid", 77, 0, ⟨ftrace_func.unset, []⟩⟩, [], 0⟩,
          [kcall.printk_s "@ %s\n" "_hideproc_init", kcall.INIT_LIST_HEAD,
            kcall.alloc_chrdev_region, kcall.class_create, kcall.cdev_init, kcall.cdev_add,
            kcall.device_create, kcall.kallsyms_lookup_name "find_ge_pid",
            kcall.kallsyms_lookup_name "find_ge_pid",
            kcall.printk_s "unresolved symbol: %s\n" "find_ge_pid"]) := by
  refine ⟨fun _ _ _ => rfl, by decide, by decide⟩

/-- C14: when the resolver yields 0 for the descriptor's symbol name,
`hook_install` returns `-ENOENT`, the location `orig` points at keeps its
content (no store through it is made), and neither `ftrace_set_filter_ip` nor
`register_ftrace_function` is called: the only calls are the lookup and the
log line. -/
theorem hook_install_unresolved (k : kernel) (h : hook_state)
    (hz : k.kallsyms_lookup_name h.hook.name = 0) :
    (hook_install k h).1 = -ENOENT ∧
    (hook_install k h).2.1.orig = h.orig ∧
    (hook_install k h).2.2
      = [kcall.kallsyms_lookup_name h.hook.name,
          kcall.printk_s "unresolved symbol: %s\n" h.hook.name] ∧
    (∀ a, kcall.store_orig a ∉ (hook_install k h).2.2) ∧
    (∀ ip remove reset, kcall.ftrace_set_filter_ip ip remove reset ∉ (hook_install k h).2.2) ∧
    kcall.register_ftrace_function ∉ (hook_install k h).2.2 := by
  rw [hook_install_of_unresolved k h hz]
  refine ⟨rfl, rfl, rfl, ?_, ?_, ?_⟩
  · intro a
    simp
  · intro ip remove reset
    simp
  · simp

/-- C14 in a kernel where no symbol resolves, for a descriptor of `find_ge_pid`
whose `orig` location holds 5. -/
theorem hook_install_unresolved_witness :
    (hook_install kernel_without_symbols
      ⟨⟨"find_ge_pid", 77, 0, ⟨ftrace_func.unset, []⟩⟩, 5⟩).1 = -2 ∧
    (hook_install kernel_without_symbols
      ⟨⟨"find_ge_pid", 77, 0, ⟨ftrace_func.unset, []⟩⟩, 5⟩).2.1.orig = 5 ∧
    (hook_install kernel_without_symbols
      ⟨⟨"find_ge_pid", 77, 0, ⟨ftrace_func.unset, []⟩⟩, 5⟩).2.2
      = [kcall.kallsyms_lookup_name "find_ge_pid",
          kcall.printk_s "unresolved symbol: %s\n" "find_ge_pid"] :=
  have h := hook_install_unresolved kernel_without_symbols
    ⟨⟨"find_ge_pid", 77, 0, ⟨ftrace_func.unset, []⟩⟩, 5⟩ rfl
  ⟨h.1, h.2.1, h.2.2.1⟩

/-- C15: when the symbol resolves, arming the filter succeeds and registration
fails with `e`, `hook_install` returns `e` after calling `ftrace_set_filter_ip`
on the same address with `remove = 1`, whatever that call answers, the
resolved address having been stored through `orig`; and in every run of
`hook_install` the store through `orig` comes before the first call that arms
the filter or registers. -/
theorem hook_install_rolls_back (k : kernel) (h : hook_state) (e : Int)
    (hres : k.kallsyms_lookup_name h.hook.name ≠ 0)
    (harm : k.ftrace_set_filter_ip (k.kallsyms_lookup_name h.hook.name) 0 0 = 0)
    (hreg : k.register_ftrace_function = e) (he : e ≠ 0) :
    (hook_install k h).1 = e ∧
    (hook_install k h).2.1.orig = k.kallsyms_lookup_name h.hook.name ∧
    (hook_install k h).2.2
      = [kcall.kallsyms_lookup_name h.hook.name,
          kcall.store_orig (k.kallsyms_lookup_name h.hook.name),
          kcall.ftrace_set_filter_ip (k.kallsyms_lookup_name h.hook.name) 0 0,
          kcall.register_ftrace_function,
          kcall.printk_d "register_ftrace_function() failed: %d\n" e,
          kcall.ftrace_set_filter_ip (k.kallsyms_lookup_name h.hook.name) 1 0] ∧
    (∀ (k₂ : kernel) (h₂ : hook_state),
      stored_before_armed (hook_install k₂ h₂).2.2 = true) := by
  have hreg2 : k.register_ftrace_function ≠ 0 := by rw [hreg]; exact he
  rw [hook_install_of_refused k h hres harm hreg2, hreg]
  exact ⟨rfl, rfl, rfl, hook_install_stores_first⟩

/-- C15 in a kernel where the symbol resolves to 4096, registration fails with
-16 and the rollback call itself fails with -22: `hook_install` returns -16. -/
theorem hook_install_rolls_back_witness :
    kernel_refusing_registration.ftrace_set_filter_ip 4096 1 0 = -22 ∧
    (hook_install kernel_refusing_registration
      ⟨⟨"find_ge_pid", 77, 0, ⟨ftrace_func.unset, []⟩⟩, 0⟩).1 = -16 ∧
    (hook_install kernel_refusing_registration
      ⟨⟨"find_ge_pid", 77, 0, ⟨ftrace_func.unset, []⟩⟩, 0⟩).2.2
      = [kcall.kallsyms_lookup_name "find_ge_pid", kcall.store_orig 4096,
          kcall.ftrace_set_filter_ip 4096 0 0, kcall.register_ftrace_function,
          kcall.printk_d "register_ftrace_function() failed: %d\n" (-16),
          kcall.ftrace_set_filter_ip 4096 1 0] :=
  have h := hook_install_rolls_back kernel_refusing_registration
    ⟨⟨"find_ge_pid", 77, 0, ⟨ftrace_func.unset, []⟩⟩, 0⟩ (-16) (by decide) (by decide)
    rfl (by decide)
  ⟨by decide, h.1, h.2.2.1⟩

/-- C16: `hook_ftrace_thunk` sets the saved instruction pointer to the
replacement function when the call site `parent_ip` is outside the module's
init and core regions, and leaves the saved registers as they are when it is
inside; so, the saved pointer not being the replacement already, it is the
replacement afterwards exactly when the call site is outside the module. -/
theorem hook_ftrace_thunk_redirects (THIS_MODULE : module) (hook : ftrace_hook)
    (ip parent_ip : Nat) (regs : pt_regs) :
    (within_module parent_ip THIS_MODULE = false →
      hook_ftrace_thunk THIS_MODULE hook ip parent_ip regs
        = ⟨hook.func, regs.sp, regs.others⟩) ∧
    (within_module parent_ip THIS_MODULE = true →
      hook_ftrace_thunk THIS_MODULE hook ip parent_ip regs = regs) ∧
    (regs.ip ≠ hook.func →
      ((hook_ftrace_thunk THIS_MODULE hook ip parent_ip regs).ip = hook.func ↔
        within_module parent_ip THIS_MODULE = false)) := by
  refine ⟨?_, ?_, ?_⟩
  · intro h
    simp [hook_ftrace_thunk, h]
  · intro h
    simp [hook_ftrace_thunk, h]
  · intro hne
    cases h : within_module parent_ip THIS_MODULE
    · simp [hook_ftrace_thunk, h]
    · simp [hook_ftrace_thunk, h, hne]

/-- C16 for a module whose core region is 1000..1099, replacement at 77: a call
from 1100 is redirected, a call from 1050 is not. -/
theorem hook_ftrace_thunk_redirects_witness :
    hook_ftrace_thunk ⟨⟨0, 0⟩, ⟨1000, 100⟩⟩ ⟨"find_ge_pid", 77, 4096, ⟨ftrace_func.unset, []⟩⟩
      4096 1100 ⟨4096, 1, [2, 3]⟩ = ⟨77, 1, [2, 3]⟩ ∧
    hook_ftrace_thunk ⟨⟨0, 0⟩, ⟨1000, 100⟩⟩ ⟨"find_ge_pid", 77, 4096, ⟨ftrace_func.unset, []⟩⟩
      4096 1050 ⟨4096, 1, [2, 3]⟩ = ⟨4096, 1, [2, 3]⟩ :=
  ⟨(hook_ftrace_thunk_redirects ⟨⟨0, 0⟩, ⟨1000, 100⟩⟩
      ⟨"find_ge_pid", 77, 4096, ⟨ftrace_func.unset, []⟩⟩ 4096 1100 ⟨4096, 1, [2, 3]⟩).1
      (by decide),
    (hook_ftrace_thunk_redirects ⟨⟨0, 0⟩, ⟨1000, 100⟩⟩
      ⟨"find_ge_pid", 77, 4096, ⟨ftrace_func.unset, []⟩⟩ 4096 1050 ⟨4096, 1, [2, 3]⟩).2.1
      (by decide)⟩

/-- C17: for every hidden list, the empty one included, and whatever the
kernel answers, `_hideproc_exit` leaves the list empty; apart from log lines
its calls are `unregister_ftrace_function`, then `ftrace_set_filter_ip` with
`remove = 1`, then for each node of the original list in order one `list_del`
and one `kfree`, then the device teardown; the nodes freed are the original
list, each once. -/
theorem hideproc_exit_releases_all (k : kernel) (d : hideproc_data_t) :
    (_hideproc_exit k d).1.hidden_proc = [] ∧
    (_hideproc_exit k d).2.filter (fun ev => !is_printk ev)
      = [kcall.unregister_ftrace_function, kcall.ftrace_set_filter_ip d.hook.address 1 0]
        ++ d.hidden_proc.flatMap (fun id => [kcall.list_del id, kcall.kfree id])
        ++ [kcall.device_destroy, kcall.class_destroy, kcall.unregister_chrdev_region,
          kcall.cdev_del] ∧
    (_hideproc_exit k d).2.filterMap freed_node = d.hidden_proc := by
  refine ⟨exit_loop_empties d.hidden_proc, ?_, ?_⟩
  · simp only [_hideproc_exit, exit_loop_calls, List.filter_append,
      filter_printk_hook_remove, filter_printk_exit_loop]
    simp [is_printk]
  · simp only [_hideproc_exit, exit_loop_calls, List.filterMap_append,
      freed_hook_remove, freed_exit_loop]
    simp [freed_node]

/-- C17 for the lists 1, 2, 3 and the empty one, in a kernel whose
`unregister_ftrace_function` and filter removal both report errors. -/
theorem hideproc_exit_releases_all_witness :
    (_hideproc_exit kernel_refusing_registration
      ⟨⟨"find_ge_pid", 77, 4096, ⟨ftrace_func.unset, []⟩⟩, [1, 2, 3], 4096⟩).1.hidden_proc = [] ∧
    (_hideproc_exit kernel_refusing_registration
      ⟨⟨"find_ge_pid", 77, 4096, ⟨ftrace_func.unset, []⟩⟩, [1, 2, 3], 4096⟩).2.filterMap
        freed_node = [1, 2, 3] ∧
    (_hideproc_exit kernel_refusing_registration
      ⟨⟨"find_ge_pid", 77, 4096, ⟨ftrace_func.unset, []⟩⟩, [], 4096⟩).2
      = [kcall.printk_s "@ %s\n" "_hideproc_exit", kcall.unregister_ftrace_function,
          kcall.printk_d "unregister_ftrace_function() failed: %d\n" (-5),
          kcall.ftrace_set_filter_ip 4096 1 0,
          kcall.printk_d "ftrace_set_filter_ip() failed: %d\n" (-22),
          kcall.device_destroy, kcall.class_destroy, kcall.unregister_chrdev_region,
          kcall.cdev_del] :=
  have h := hideproc_exit_releases_all kernel_refusing_registration
    ⟨⟨"find_ge_pid", 77, 4096, ⟨ftrace_func.unset, []⟩⟩, [1, 2, 3], 4096⟩
  ⟨h.1, h.2.2, by decide⟩

/-- C18, the code on the size of `message`: `MAX_MESSAGE_SIZE` is 13, the line
for 1000000 needs 14 bytes with its NUL and the line for -2147483648 needs 18;
an identifier's line fits exactly when the identifier lies between -99999 and
999999, so not for every `pid_t` value. -/
theorem message_too_small_for_pid_t :
    MAX_MESSAGE_SIZE = 13 ∧
    (sprintf_pid 1000000).length + 1 = 14 ∧
    (sprintf_pid (-2147483648)).length + 1 = 18 ∧
    (∀ id : Int, (sprintf_pid id).length + 1 ≤ MAX_MESSAGE_SIZE ↔
      -99999 ≤ id ∧ id ≤ 999999) ∧
    ¬ (∀ id : Int, INT_MIN ≤ id → id ≤ INT_MAX →
      (sprintf_pid id).length + 1 ≤ MAX_MESSAGE_SIZE) := by
  refine ⟨by decide, by decide, by decide, sprintf_pid_fits_iff, ?_⟩
  intro h
  have h1 := h 1000000 (by decide) (by decide)
  have h2 := (sprintf_pid_fits_iff 1000000).1 h1
  omega

/-- C19, the code on the requested length: with 42 hidden, a read of length 1
(or 0) at offset 0 stores the 8 bytes of the line in the user buffer and
returns 8; the requested length has no influence on what `device_read` does. -/
theorem device_read_exceeds_len :
    device_read [42] 1 0 = some ⟨8, ascii "pid: 42\n", 8⟩ ∧
    device_read [42] 0 0 = some ⟨8, ascii "pid: 42\n", 8⟩ ∧
    (∀ (hidden : List Int) (len offset : Nat),
      device_read hidden len offset = device_read hidden 0 offset) := by
  refine ⟨by decide, by decide, ?_⟩
  intro hidden len offset
  exact device_read_len_irrelevant hidden len 0 offset

/-- C20, the code on the parse position: a write of exactly `add` (or `del`)
passes the length check with `len = 3`, the message buffer holds 4 bytes and
parsing starts at offset 4, the first byte after it; the digits parsed are the
bytes that happen to follow the allocation, so the same write hides 77 or 5
depending on them. For writes of at least 4 bytes the string parsed lies in
the buffer and does not depend on what follows it. -/
theorem device_write_parses_past_message :
    add_message.length = 4 ∧
    (ascii "add" ++ [0]).length = 4 ∧
    (∀ u : indeterminate,
      c_string ((ascii "add" ++ [0]) ++ u.past_end) add_message.length
        = c_string u.past_end 0) ∧
    device_write ⟨0, ascii "77"⟩ [] (ascii "add") 0
      = some ⟨3, [77], 3, [call.kmalloc 4, call.memcmp add_message,
          call.kstrtol (ascii "77") 0, call.hide_process 77, call.kfree]⟩ ∧
    (device_write ⟨0, ascii "5"⟩ [] (ascii "add") 0).map (fun w => w.hidden_proc)
      = some [5] ∧
    (device_write ⟨0, ascii "5"⟩ [5, 9] (ascii "del") 0).map (fun w => w.hidden_proc)
      = some [9] ∧
    (∀ buffer past : List Nat, 4 ≤ buffer.length →
      add_message.length < (buffer ++ [0]).length ∧
      c_string ((buffer ++ [0]) ++ past) add_message.length
        = c_string (buffer ++ [0]) add_message.length) := by
  refine ⟨by decide, by decide, ?_, by decide, by decide, by decide, ?_⟩
  · intro u
    rfl
  · intro buffer past h
    have h4 : add_message.length = 4 := by decide
    rw [h4]
    refine ⟨?_, c_string_inside_message buffer past h⟩
    simp only [List.length_append, List.length_singleton]
    omega

end Hideproc
